import Mathlib

/-!
# Verification of `go-concurrency-experiments`

Shallow embedding of three packages of the repository:

* `orderedlogs` (`pkg/ordered-logs/ordered_logs.go`): the ordered log printer.  The
  handle, its three buffered channels, the two atomic flags and the position of the
  `printLoop` goroutine form an explicit state.  A step is an atomic operation of
  `printLoop` (a receive, a load of `wait`, a `len`, a write to `Out`), a call of a
  producer, a select of `Close`, or the flag store of `Wait`.  `New` is one step as well:
  the model has one `printLoop` goroutine and does not cover calls that overlap the
  initialisation of the handle.
* `log_parse` (`pkg/log-parse/log_parse.go`): `ParseLine` and `CountEvents`.
* `concurrentdownloads` (`pkg/concurrent-downloads/concurrent_downloads.go`): `FetchURL`.
-/

namespace orderedlogs

/-! ## Go channels of strings -/

/-- A buffered Go channel (`chan *string`): the buffered values, oldest first, the
capacity given to `make`, and whether `close` has been called on it. -/
structure Chan where
  buf : List String
  cap : Nat
  closed : Bool
deriving DecidableEq, Repr

/-- The channel `make(chan *string, n)`. -/
def Chan.make (n : Nat) : Chan := ⟨[], n, false⟩

/-- Result of a send inside `select { case ch <- v: ...; default: ... }`. -/
inductive Send where
  | sent (c : Chan)
  | full
  | closedPanic
deriving DecidableEq, Repr

/-- Non-blocking send: a closed channel panics, a channel with room takes the value
at the tail of its buffer, a full channel selects the `default` branch. -/
def Chan.trySend (c : Chan) (v : String) : Send :=
  if c.closed then .closedPanic
  else if c.buf.length < c.cap then .sent { c with buf := c.buf ++ [v] }
  else .full

/-- Result of a receive `v, ok := <-ch`. -/
inductive Recv where
  | value (v : String) (c : Chan)
  | closedEmpty
  | wouldBlock
deriving DecidableEq, Repr

/-- Receive: a buffered value is delivered first (also from a closed channel); an
empty closed channel yields `ok = false`; an empty open channel has nothing ready. -/
def Chan.recv (c : Chan) : Recv :=
  match c.buf with
  | v :: rest => .value v { c with buf := rest }
  | [] => if c.closed then .closedEmpty else .wouldBlock

/-! ## The handle and the position of `printLoop` -/

/-- Position of the `printLoop` goroutine, with the local variables `firstLog`,
`secondLog`, `thirdLog` that are live there.  Line numbers refer to `ordered_logs.go`. -/
inductive Loc where
  /-- Goroutine not launched (`New` has not run). -/
  | idle
  /-- Line 121: `firstLog, ok := <-o.first`. -/
  | recvFirst
  /-- Line 126: `o.wait.Load()`. -/
  | loadWait1 (f : String)
  /-- Line 126: `len(o.second) == 0`. -/
  | lenSecond1 (f : String)
  /-- Line 126: `len(o.third) == 0`. -/
  | lenThird1 (f : String)
  /-- Line 130: `secondLog, ok := <-o.second`. -/
  | recvSecond (f : String)
  /-- Line 134: `o.wait.Load()`. -/
  | loadWait2 (f g : String)
  /-- Line 134: `len(o.third) == 0`. -/
  | lenThird2 (f g : String)
  /-- Line 138: `thirdLog, ok := <-o.third`. -/
  | recvThird (f g : String)
  /-- Line 144: `print(firstLog)`. -/
  | print1 (f g h : String)
  /-- Line 145: `print(secondLog)`. -/
  | print2 (f g h : String)
  /-- Line 146: `print(thirdLog)`. -/
  | print3 (f g h : String)
  /-- Line 148: `o.wait.Load()`. -/
  | loadWait3
  /-- Line 148: `len(o.first) == 0`. -/
  | lenFirst3
  /-- Line 153, reached by every `break`: `o.wg.Done()` is next. -/
  | exit
  /-- Goroutine finished: the wait group counter is back to zero. -/
  | done
deriving DecidableEq, Repr

/-- The struct `OrderedLogs`.  `Out` is the content written to the sink so far; `loop`
stands for the wait group together with the goroutine it counts (the counter is `1`
exactly when `loop` is neither `idle` nor `done`). -/
structure OrderedLogs where
  first : Chan
  second : Chan
  third : Chan
  Size : Int
  Out : String
  init : Bool
  wait : Bool
  loop : Loc
deriving DecidableEq, Repr

/-- The handle `&OrderedLogs{Size: size, Out: buf}` with an empty buffer as sink. -/
def fresh (size : Int) : OrderedLogs :=
  { first := Chan.make 0, second := Chan.make 0, third := Chan.make 0,
    Size := size, Out := "", init := false, wait := false, loop := .idle }

/-- Outcome of a call: normal return, or a panic raised in the given state. -/
inductive Outcome where
  | ok (s : OrderedLogs)
  | panic (msg : String) (s : OrderedLogs)
deriving DecidableEq, Repr

/-- The state a call leaves behind (for a panic: the state at the panic). -/
def Outcome.state : Outcome → OrderedLogs
  | .ok s => s
  | .panic _ s => s

/-- Whether the call returned normally. -/
def Outcome.isOk : Outcome → Bool
  | .ok _ => true
  | .panic _ _ => false

/-- The capacity `New` gives the three channels: `Size`, or 512 when `Size` is zero. -/
def capacity (size : Int) : Nat := if size = 0 then 512 else size.toNat

/-- `New`: no-op when already initialised; otherwise defaults `Size`, makes the three
channels (`make` panics on a negative size), sets `init` and launches `printLoop`.  The
body is run as one step, which is what a call does that no other call overlaps: between
the load of `init` (line 34) and the store (line 53) the source lets a second first call
pass the load as well, and that race is not part of the model. -/
def New (o : OrderedLogs) : Outcome :=
  if o.init then .ok o
  else
    let size : Int := if o.Size = 0 then 512 else o.Size
    if size < 0 then .panic "makechan: size out of range" { o with Size := size }
    else .ok { o with
      Size := size
      first := Chan.make size.toNat
      second := Chan.make size.toNat
      third := Chan.make size.toNat
      init := true
      loop := .recvFirst }

/-- One `select { case <-ch: close(ch); default: }` of `Close`: when the receive is
ready (a buffered value, which is consumed, or a closed channel) the channel is
closed, which panics if it is closed already; otherwise nothing happens. -/
def closeSelect (c : Chan) : Except Chan Chan :=
  match c.recv with
  | .value _ c1 => if c1.closed then .error c1 else .ok { c1 with closed := true }
  | .closedEmpty => .error c
  | .wouldBlock => .ok c

/-- Lines 85–90 of `Close`, on the channel `first`. -/
def closeFirst (o : OrderedLogs) : Outcome :=
  if !o.init then .ok o
  else match closeSelect o.first with
    | .ok c => .ok { o with first := c }
    | .error c => .panic "close of closed channel" { o with first := c }

/-- Lines 92–97 of `Close`, on the channel `second`. -/
def closeSecond (o : OrderedLogs) : Outcome :=
  if !o.init then .ok o
  else match closeSelect o.second with
    | .ok c => .ok { o with second := c }
    | .error c => .panic "close of closed channel" { o with second := c }

/-- Lines 99–104 of `Close`, on the channel `third`. -/
def closeThird (o : OrderedLogs) : Outcome :=
  if !o.init then .ok o
  else match closeSelect o.third with
    | .ok c => .ok { o with third := c }
    | .error c => .panic "close of closed channel" { o with third := c }

/-- `Close`, run without interruption: the three selects in order; a panic aborts. -/
def Close (o : OrderedLogs) : Outcome :=
  match closeFirst o with
  | .panic m s => .panic m s
  | .ok s1 =>
    match closeSecond s1 with
    | .panic m s => .panic m s
    | .ok s2 => closeThird s2

/-- The send of `PrintFirst` (lines 168–175). -/
def sendFirst (log : String) (o : OrderedLogs) : Outcome :=
  match o.first.trySend log with
  | .sent c => .ok { o with first := c }
  | .full => .panic "Out of space" o
  | .closedPanic => .panic "send on closed channel" o

/-- The send of `PrintSecond` (lines 190–197). -/
def sendSecond (log : String) (o : OrderedLogs) : Outcome :=
  match o.second.trySend log with
  | .sent c => .ok { o with second := c }
  | .full => .panic "Out of space" o
  | .closedPanic => .panic "send on closed channel" o

/-- The send of `PrintThird` (lines 212–219). -/
def sendThird (log : String) (o : OrderedLogs) : Outcome :=
  match o.third.trySend log with
  | .sent c => .ok { o with third := c }
  | .full => .panic "Out of space" o
  | .closedPanic => .panic "send on closed channel" o

/-- `PrintFirst`: self-initialise when needed, then try to queue the log. -/
def PrintFirst (log : String) (o : OrderedLogs) : Outcome :=
  match New o with
  | .panic m s => .panic m s
  | .ok s => sendFirst log s

/-- `PrintSecond`: self-initialise when needed, then try to queue the log. -/
def PrintSecond (log : String) (o : OrderedLogs) : Outcome :=
  match New o with
  | .panic m s => .panic m s
  | .ok s => sendSecond log s

/-- `PrintThird`: self-initialise when needed, then try to queue the log. -/
def PrintThird (log : String) (o : OrderedLogs) : Outcome :=
  match New o with
  | .panic m s => .panic m s
  | .ok s => sendThird log s

/-- The first half of `Wait` (lines 64–74): panic on an uninitialised handle, otherwise
make sure the `wait` flag is set.  The second half blocks on the wait group. -/
def waitStore (o : OrderedLogs) : Outcome :=
  if !o.init then .panic "cannot wait on nil/uninitialized OrderedLogs" o
  else if o.wait then .ok o
  else .ok { o with wait := true }

/-- What `fmt.Fprintln(o.Out, *s)` appends to the sink. -/
def line (s : String) : String := s ++ "\n"

/-- One atomic step of the `printLoop` goroutine; `none` when it cannot move (not
launched, finished, or blocked in a receive on an empty open channel). -/
def printLoop (o : OrderedLogs) : Option OrderedLogs :=
  match o.loop with
  | .idle => none
  | .recvFirst =>
    match o.first.recv with
    | .value v c => some { o with first := c, loop := .loadWait1 v }
    | .closedEmpty => some { o with loop := .exit }
    | .wouldBlock => none
  | .loadWait1 f => some { o with loop := if o.wait then .lenSecond1 f else .recvSecond f }
  | .lenSecond1 f =>
    some { o with loop := if o.second.buf.length = 0 then .exit else .lenThird1 f }
  | .lenThird1 f =>
    some { o with loop := if o.third.buf.length = 0 then .exit else .recvSecond f }
  | .recvSecond f =>
    match o.second.recv with
    | .value v c => some { o with second := c, loop := .loadWait2 f v }
    | .closedEmpty => some { o with loop := .exit }
    | .wouldBlock => none
  | .loadWait2 f g => some { o with loop := if o.wait then .lenThird2 f g else .recvThird f g }
  | .lenThird2 f g =>
    some { o with loop := if o.third.buf.length = 0 then .exit else .recvThird f g }
  | .recvThird f g =>
    match o.third.recv with
    | .value v c => some { o with third := c, loop := .print1 f g v }
    | .closedEmpty => some { o with loop := .exit }
    | .wouldBlock => none
  | .print1 f g h => some { o with Out := o.Out ++ line f, loop := .print2 f g h }
  | .print2 f g h => some { o with Out := o.Out ++ line g, loop := .print3 f g h }
  | .print3 _ _ h => some { o with Out := o.Out ++ line h, loop := .loadWait3 }
  | .loadWait3 => some { o with loop := if o.wait then .lenFirst3 else .recvFirst }
  | .lenFirst3 =>
    some { o with loop := if o.first.buf.length = 0 then .exit else .recvFirst }
  | .exit => some { o with loop := .done }
  | .done => none

/-! ## Interleavings -/

/-- The atomic actions of the system: calls of the producers, the flag store of
`Wait`, the three selects of `Close`, and a step of the `printLoop` goroutine. -/
inductive Action where
  | New
  | PrintFirst (log : String)
  | PrintSecond (log : String)
  | PrintThird (log : String)
  | WaitStore
  | CloseFirst
  | CloseSecond
  | CloseThird
  | Loop
deriving DecidableEq, Repr

/-- Outcome of a call action (not defined for `Loop`, which is no call). -/
def Action.call : Action → OrderedLogs → Outcome
  | .New, o => orderedlogs.New o
  | .PrintFirst m, o => orderedlogs.PrintFirst m o
  | .PrintSecond m, o => orderedlogs.PrintSecond m o
  | .PrintThird m, o => orderedlogs.PrintThird m o
  | .WaitStore, o => waitStore o
  | .CloseFirst, o => closeFirst o
  | .CloseSecond, o => closeSecond o
  | .CloseThird, o => closeThird o
  | .Loop, o => .ok o

/-- Effect of one action on the state.  A panic is taken as recovered by the caller
(as the tests do), leaving the state of the panic; a `Loop` step that cannot move leaves
the state as it is. -/
def step (a : Action) (o : OrderedLogs) : OrderedLogs :=
  match a with
  | .Loop => (printLoop o).getD o
  | a => (a.call o).state

/-- Run a schedule, first action first. -/
def run : List Action → OrderedLogs → OrderedLogs
  | [], o => o
  | a :: as, o => run as (step a o)

/-- The output of complete rounds: for each index, the line of the first, of the second
and of the third stream. -/
def rounds : List String → List String → List String → String
  | a :: as, b :: bs, c :: cs => line a ++ line b ++ line c ++ rounds as bs cs
  | _, _, _ => ""

end orderedlogs

namespace orderedlogs

/-- Whether `printLoop` is inside the emit block, lines 144–146. -/
def Loc.emitting : Loc → Bool
  | .print1 _ _ _ => true
  | .print2 _ _ _ => true
  | .print3 _ _ _ => true
  | _ => false

/-- An initialised handle of size 1 with nothing queued. -/
def sized1 : OrderedLogs := (New (fresh 1)).state

/-- The schedule of the test "it works" in which `printLoop` emits the round and is
back at its first receive before `Wait` stores the flag. -/
def emittedThenWait : List Action :=
  [.PrintFirst "one", .PrintSecond "two", .PrintThird "three"] ++
    List.replicate 9 .Loop ++ [.WaitStore]

/-- The state in which `Wait` has stored its flag, the three channels are open and
empty, and `printLoop` is at its receive from the first channel. -/
def blockedWaiting (out : String) : OrderedLogs :=
  { first := ⟨[], 512, false⟩, second := ⟨[], 512, false⟩, third := ⟨[], 512, false⟩,
    Size := 512, Out := out, init := true, wait := true, loop := .recvFirst }

/-- Two complete rounds queued on a handle of default size, `printLoop` not yet run. -/
def twoRounds : OrderedLogs :=
  run [.PrintFirst "a1", .PrintFirst "a2", .PrintSecond "b1", .PrintSecond "b2",
    .PrintThird "c1", .PrintThird "c2"] (fresh 0)

end orderedlogs

namespace orderedlogs

/-- Relational presentation of `printLoop`, one rule per branch of each position
(proved below to be exactly the steps of `printLoop`). -/
inductive LoopStep : OrderedLogs → OrderedLogs → Prop
  | recvFirstVal (o : OrderedLogs) (v : String) (r : List String) :
      o.loop = .recvFirst → o.first.buf = v :: r →
      LoopStep o { o with first := { o.first with buf := r }, loop := .loadWait1 v }
  | recvFirstClosed (o : OrderedLogs) :
      o.loop = .recvFirst → o.first.buf = [] → o.first.closed = true →
      LoopStep o { o with loop := .exit }
  | loadWait1Set (o : OrderedLogs) (f : String) :
      o.loop = .loadWait1 f → o.wait = true → LoopStep o { o with loop := .lenSecond1 f }
  | loadWait1Unset (o : OrderedLogs) (f : String) :
      o.loop = .loadWait1 f → o.wait = false → LoopStep o { o with loop := .recvSecond f }
  | lenSecond1Empty (o : OrderedLogs) (f : String) :
      o.loop = .lenSecond1 f → o.second.buf = [] → LoopStep o { o with loop := .exit }
  | lenSecond1Some (o : OrderedLogs) (f : String) :
      o.loop = .lenSecond1 f → o.second.buf ≠ [] → LoopStep o { o with loop := .lenThird1 f }
  | lenThird1Empty (o : OrderedLogs) (f : String) :
      o.loop = .lenThird1 f → o.third.buf = [] → LoopStep o { o with loop := .exit }
  | lenThird1Some (o : OrderedLogs) (f : String) :
      o.loop = .lenThird1 f → o.third.buf ≠ [] → LoopStep o { o with loop := .recvSecond f }
  | recvSecondVal (o : OrderedLogs) (f v : String) (r : List String) :
      o.loop = .recvSecond f → o.second.buf = v :: r →
      LoopStep o { o with second := { o.second with buf := r }, loop := .loadWait2 f v }
  | recvSecondClosed (o : OrderedLogs) (f : String) :
      o.loop = .recvSecond f → o.second.buf = [] → o.second.closed = true →
      LoopStep o { o with loop := .exit }
  | loadWait2Set (o : OrderedLogs) (f g : String) :
      o.loop = .loadWait2 f g → o.wait = true → LoopStep o { o with loop := .lenThird2 f g }
  | loadWait2Unset (o : OrderedLogs) (f g : String) :
      o.loop = .loadWait2 f g → o.wait = false → LoopStep o { o with loop := .recvThird f g }
  | lenThird2Empty (o : OrderedLogs) (f g : String) :
      o.loop = .lenThird2 f g → o.third.buf = [] → LoopStep o { o with loop := .exit }
  | lenThird2Some (o : OrderedLogs) (f g : String) :
      o.loop = .lenThird2 f g → o.third.buf ≠ [] → LoopStep o { o with loop := .recvThird f g }
  | recvThirdVal (o : OrderedLogs) (f g v : String) (r : List String) :
      o.loop = .recvThird f g → o.third.buf = v :: r →
      LoopStep o { o with third := { o.third with buf := r }, loop := .print1 f g v }
  | recvThirdClosed (o : OrderedLogs) (f g : String) :
      o.loop = .recvThird f g → o.third.buf = [] → o.third.closed = true →
      LoopStep o { o with loop := .exit }
  | print1 (o : OrderedLogs) (f g h : String) :
      o.loop = .print1 f g h → LoopStep o { o with Out := o.Out ++ line f, loop := .print2 f g h }
  | print2 (o : OrderedLogs) (f g h : String) :
      o.loop = .print2 f g h → LoopStep o { o with Out := o.Out ++ line g, loop := .print3 f g h }
  | print3 (o : OrderedLogs) (f g h : String) :
      o.loop = .print3 f g h → LoopStep o { o with Out := o.Out ++ line h, loop := .loadWait3 }
  | loadWait3Set (o : OrderedLogs) :
      o.loop = .loadWait3 → o.wait = true → LoopStep o { o with loop := .lenFirst3 }
  | loadWait3Unset (o : OrderedLogs) :
      o.loop = .loadWait3 → o.wait = false → LoopStep o { o with loop := .recvFirst }
  | lenFirst3Empty (o : OrderedLogs) :
      o.loop = .lenFirst3 → o.first.buf = [] → LoopStep o { o with loop := .exit }
  | lenFirst3Some (o : OrderedLogs) :
      o.loop = .lenFirst3 → o.first.buf ≠ [] → LoopStep o { o with loop := .recvFirst }
  | wgDone (o : OrderedLogs) :
      o.loop = .exit → LoopStep o { o with loop := .done }

/-- The value `printLoop` has received from the first stream in the current round. -/
def Loc.taken1 : Loc → List String
  | .loadWait1 f | .lenSecond1 f | .lenThird1 f | .recvSecond f => [f]
  | .loadWait2 f _ | .lenThird2 f _ | .recvThird f _ => [f]
  | .print1 f _ _ | .print2 f _ _ | .print3 f _ _ => [f]
  | _ => []

/-- The value `printLoop` has received from the second stream in the current round. -/
def Loc.taken2 : Loc → List String
  | .loadWait2 _ g | .lenThird2 _ g | .recvThird _ g => [g]
  | .print1 _ g _ | .print2 _ g _ | .print3 _ g _ => [g]
  | _ => []

/-- The value `printLoop` has received from the third stream in the current round. -/
def Loc.taken3 : Loc → List String
  | .print1 _ _ h | .print2 _ _ h | .print3 _ _ h => [h]
  | _ => []

/-- The part of the current round that `printLoop` has already written to the sink. -/
def Loc.written : Loc → String
  | .print2 f _ _ => line f
  | .print3 f g _ => line f ++ line g
  | _ => ""

/-- Messages that `PrintFirst` calls of a schedule queued successfully, in order. -/
def accepted1 : List Action → OrderedLogs → List String
  | [], _ => []
  | .PrintFirst m :: as, o =>
    (if (PrintFirst m o).isOk then [m] else []) ++ accepted1 as (step (.PrintFirst m) o)
  | a :: as, o => accepted1 as (step a o)

/-- Messages that `PrintSecond` calls of a schedule queued successfully, in order. -/
def accepted2 : List Action → OrderedLogs → List String
  | [], _ => []
  | .PrintSecond m :: as, o =>
    (if (PrintSecond m o).isOk then [m] else []) ++ accepted2 as (step (.PrintSecond m) o)
  | a :: as, o => accepted2 as (step a o)

/-- Messages that `PrintThird` calls of a schedule queued successfully, in order. -/
def accepted3 : List Action → OrderedLogs → List String
  | [], _ => []
  | .PrintThird m :: as, o =>
    (if (PrintThird m o).isOk then [m] else []) ++ accepted3 as (step (.PrintThird m) o)
  | a :: as, o => accepted3 as (step a o)

end orderedlogs

namespace orderedlogs

/-- Invariant relating the sink and the queues to the messages `e1`, `e2`, `e3` queued
so far on the three streams: the sink is the output of complete rounds `p1`, `p2`, `p3`
followed by what `printLoop` has written of the current round, and on each stream the
emitted messages, the one held by `printLoop` and the buffered ones form, in this order,
a subsequence of the queued ones. -/
def SinkInv (o : OrderedLogs) (e1 e2 e3 : List String) : Prop :=
  (o.init = false → o.loop = .idle) ∧
  ∃ p1 p2 p3 : List String, p1.length = p2.length ∧ p2.length = p3.length ∧
    o.Out = rounds p1 p2 p3 ++ o.loop.written ∧
    (p1 ++ o.loop.taken1 ++ o.first.buf).Sublist e1 ∧
    (p2 ++ o.loop.taken2 ++ o.second.buf).Sublist e2 ∧
    (p3 ++ o.loop.taken3 ++ o.third.buf).Sublist e3

end orderedlogs

namespace orderedlogs

/-- Whether an action is a producer call or a `printLoop` step. -/
def Action.producerOrLoop : Action → Bool
  | .PrintFirst _ | .PrintSecond _ | .PrintThird _ | .Loop => true
  | _ => false

/-- The messages of the `PrintFirst` calls of a schedule, in call order. -/
def callsFirst : List Action → List String
  | [] => []
  | .PrintFirst m :: as => m :: callsFirst as
  | _ :: as => callsFirst as

/-- The messages of the `PrintSecond` calls of a schedule, in call order. -/
def callsSecond : List Action → List String
  | [] => []
  | .PrintSecond m :: as => m :: callsSecond as
  | _ :: as => callsSecond as

/-- The messages of the `PrintThird` calls of a schedule, in call order. -/
def callsThird : List Action → List String
  | [] => []
  | .PrintThird m :: as => m :: callsThird as
  | _ :: as => callsThird as

/-- Positions of `printLoop` that are reached only after the `wait` flag was seen set. -/
def Loc.afterFlag : Loc → Bool
  | .lenSecond1 _ | .lenThird1 _ | .lenThird2 _ _ | .lenFirst3 | .exit | .done => true
  | _ => false

/-- Whether `printLoop` has left its loop. -/
def Loc.left : Loc → Bool
  | .exit | .done => true
  | _ => false

/-- Invariant of a run without `Close` in which every call succeeds and `Wait` is
called only after `k` messages have been queued on every stream: channels are open with
capacity `cap`, nothing is lost (on each stream the emitted messages, the one held by
`printLoop` and the buffered ones are exactly the queued messages `e1`, `e2`, `e3`), and
`printLoop` leaves its loop only with all queues empty. -/
def DrainInv (k cap : Nat) (o : OrderedLogs) (e1 e2 e3 : List String) : Prop :=
  o.init = true ∧ o.loop ≠ .idle ∧
  (o.first.closed = false ∧ o.second.closed = false ∧ o.third.closed = false) ∧
  (o.first.cap = cap ∧ o.second.cap = cap ∧ o.third.cap = cap) ∧
  (o.loop.afterFlag = true → o.wait = true) ∧
  (o.wait = true → e1.length = k ∧ e2.length = k ∧ e3.length = k) ∧
  (o.loop.left = true → o.first.buf = [] ∧ o.second.buf = [] ∧ o.third.buf = []) ∧
  ∃ p1 p2 p3 : List String, p1.length = p2.length ∧ p2.length = p3.length ∧
    o.Out = rounds p1 p2 p3 ++ o.loop.written ∧
    e1 = p1 ++ o.loop.taken1 ++ o.first.buf ∧
    e2 = p2 ++ o.loop.taken2 ++ o.second.buf ∧
    e3 = p3 ++ o.loop.taken3 ++ o.third.buf

end orderedlogs

namespace orderedlogs

/-- The producer calls of the test "out of order". -/
def outOfOrder : List Action :=
  [.PrintThird "three", .PrintSecond "two", .PrintFirst "one"]

end orderedlogs

namespace log_parse

/-! ## The regular expression of `ParseLine`

`regexp.MustCompile(pattern).FindStringSubmatch` is library code.  Its leftmost-first
semantics (the match a backtracking search finds first, from the earliest start) is
modelled for the fragment the pattern uses: a sequence of literal texts, single
characters of a class (the `.` in `HTTP/1.1`) and greedy one-or-more repetitions of a
character class, some of them capturing. -/

/-- One item of a pattern: literal text, one character of a class, or a greedy `+` over a
character class. -/
inductive Item where
  | lit (cs : List Char)
  | one (cls : Char → Bool)
  | plus (cls : Char → Bool) (capture : Bool)

/-- Greedy choice: the largest `n` among `fuel, fuel - 1, ..., 1` such that the rest
of the pattern `k` matches after dropping `n` characters. -/
def greedy {α : Type} (k : List Char → Option α) (s : List Char) : Nat → Option (Nat × α)
  | 0 => none
  | n + 1 =>
    match k (s.drop (n + 1)) with
    | some r => some (n + 1, r)
    | none => greedy k s n

/-- Match a pattern at the start of `s`, backtracking; returns the captured texts. -/
def matchHere : List Item → List Char → Option (List (List Char))
  | [], _ => some []
  | .lit cs :: items, s =>
    if cs.isPrefixOf s then matchHere items (s.drop cs.length) else none
  | .one _ :: _, [] => none
  | .one cls :: items, c :: s => if cls c then matchHere items s else none
  | .plus cls capture :: items, s =>
    match greedy (matchHere items) s (s.takeWhile cls).length with
    | some (n, caps) => some (if capture then s.take n :: caps else caps)
    | none => none

/-- Leftmost match: try every start position from the left. -/
def find (items : List Item) : List Char → Option (List (List Char))
  | [] => matchHere items []
  | c :: s =>
    match matchHere items (c :: s) with
    | some caps => some caps
    | none => find items s

/-- The pattern `\[[^[]+\] ([A-Z]+) (.+) HTTP/1.1 (\d+) (.+)` of `ParseLine`.  A negated
class matches a newline, `.` does not; `\d` and `[A-Z]` are ASCII classes.  The dot in
`HTTP/1.1` is not escaped: it stands for any character but a newline. -/
def pattern : List Item :=
  [ .lit ['['], .plus (fun c => c != '[') false, .lit [']', ' '],
    .plus Char.isUpper true, .lit [' '],
    .plus (fun c => c != '\n') true,
    .lit " HTTP/1".toList, .one (fun c => c != '\n'), .lit ['1', ' '],
    .plus Char.isDigit true, .lit [' '],
    .plus (fun c => c != '\n') true ]

/-- Whether the text starts with a match of ` HTTP/1.1 ` as the pattern reads it: the
dot may be any character but a newline. -/
def httpHere : List Char → Bool
  | ' ' :: 'H' :: 'T' :: 'T' :: 'P' :: '/' :: '1' :: c :: '1' :: ' ' :: _ => c != '\n'
  | _ => false

/-- Whether the text contains a match of ` HTTP/1.1 ` as the pattern reads it. -/
def containsHttp : List Char → Bool
  | [] => false
  | c :: s => httpHere (c :: s) || containsHttp s

/-- Value of a run of decimal digits. -/
def decimal (ds : List Char) : Nat :=
  ds.foldl (fun n c => n * 10 + (c.toNat - 48)) 0

/-- `strconv.Atoi` for a 64-bit `int`: optional sign, then decimal digits; the flag
tells whether an error is returned.  A syntax error gives 0; a value out of range gives
the nearest bound (with a range error). -/
def Atoi (s : List Char) : Int × Bool :=
  let neg := s.head? = some '-'
  let ds := if s.head? = some '-' ∨ s.head? = some '+' then s.tail else s
  if ds = [] ∨ ds.all Char.isDigit = false then (0, true)
  else if neg then
    if decimal ds > 2 ^ 63 then (-(2 ^ 63), true) else (-(decimal ds : Int), false)
  else
    if decimal ds ≥ 2 ^ 63 then (2 ^ 63 - 1, true) else ((decimal ds : Int), false)

/-- The struct `Event`. -/
structure Event where
  Method : String
  Endpoint : String
  HttpStatus : Int
deriving DecidableEq, Repr

/-- The struct `EventCount` (an embedded `Event` and its count). -/
structure EventCount extends Event where
  Count : Nat
deriving DecidableEq, Repr

deriving instance DecidableEq for Except

/-- The errors of the package. -/
inductive Error where
  | ErrInvalidLogFormat
deriving DecidableEq, Repr

/-- `ParseLine`: the first match of the pattern gives method, endpoint and status
(the error of `Atoi` is dropped); without a match the result is the error. -/
def ParseLine (record : String) : Except Error Event :=
  match find pattern record.toList with
  | some [method, endpoint, statusStr, _] =>
    .ok { Method := String.mk method, Endpoint := String.mk endpoint,
          HttpStatus := (Atoi statusStr).1 }
  | _ => .error .ErrInvalidLogFormat

/-- The body of the counting loop (lines 108–116) on the map `events`, kept as an
association list in order of first insertion: create the entry with count 0 if the key
is missing, then increment it. -/
def bump (event : Event) : List EventCount → List EventCount
  | [] => [{ toEvent := event, Count := 0 + 1 }]
  | ec :: rest =>
    if ec.toEvent = event then { ec with Count := ec.Count + 1 } :: rest
    else ec :: bump event rest

/-- Declarative reading of a pattern: some prefix of `s` is matched by the items. -/
def Accepts : List Item → List Char → Prop
  | [], _ => True
  | .lit cs :: items, s => ∃ t, s = cs ++ t ∧ Accepts items t
  | .one cls :: items, s => ∃ c t, cls c = true ∧ s = c :: t ∧ Accepts items t
  | .plus cls _ :: items, s =>
    ∃ w t, w ≠ [] ∧ (∀ c ∈ w, cls c = true) ∧ s = w ++ t ∧ Accepts items t

/-- The text contains a match of the pattern. -/
def Matches (items : List Item) (s : List Char) : Prop :=
  ∃ before rest, s = before ++ rest ∧ Accepts items rest

/-- Number of capturing items of a pattern. -/
def captures : List Item → Nat
  | [] => 0
  | .lit _ :: items => captures items
  | .one _ :: items => captures items
  | .plus _ capture :: items => (if capture then 1 else 0) + captures items

/-- The record `[TS] METHOD URI HTTP/1.1 STATUS UA`. -/
def record (ts method uri status ua : List Char) : String :=
  String.mk ('[' :: (ts ++ (']' :: ' ' :: (method ++ ' ' :: (uri ++
    (" HTTP/1.1 ".toList ++ (status ++ ' ' :: ua)))))))

/-- The documented shape of a record: TS non-empty without `[` or `]`, METHOD a
non-empty run of `A`–`Z`, URI non-empty without spaces, STATUS a non-empty run of decimal
digits, UA non-empty and not containing ` HTTP/1.1 `, and no newline anywhere. -/
def Documented (ts method uri status ua : List Char) : Prop :=
  (ts ≠ [] ∧ ∀ c ∈ ts, c ≠ '[' ∧ c ≠ ']') ∧
  (method ≠ [] ∧ ∀ c ∈ method, c.isUpper = true) ∧
  (uri ≠ [] ∧ ∀ c ∈ uri, c ≠ ' ') ∧
  (status ≠ [] ∧ ∀ c ∈ status, c.isDigit = true) ∧
  (ua ≠ [] ∧ ¬ " HTTP/1.1 ".toList <:+: ua) ∧
  (∀ c ∈ ts ++ (method ++ (uri ++ (status ++ ua))), c ≠ '\n')

instance (ts method uri status ua : List Char) :
    Decidable (Documented ts method uri status ua) := by
  unfold Documented
  infer_instance

/-- The count stored in the map under the key `ev` (0 when the key is missing). -/
def getCount (ev : Event) (events : List EventCount) : Nat :=
  match events.find? (fun c => decide (c.toEvent = ev)) with
  | some c => c.Count
  | none => 0

/-- The counting loop (lines 102–117): the map after all lines were processed. -/
def countLoop (logs : List String) (events : List EventCount) : List EventCount :=
  logs.foldl (fun evs log =>
    match ParseLine log with
    | .ok event => bump event evs
    | .error _ => evs) events

/-- The comparison function given to `sort.Slice` (lines 121–131). -/
def less (a b : EventCount) : Bool :=
  if a.Count = b.Count then
    if a.Method = b.Method then decide (a.Endpoint < b.Endpoint)
    else decide (a.Method < b.Method)
  else decide (a.Count > b.Count)

/-- Insert `x` at the end of an already sorted slice and swap it towards the front while
it is `less` than its left neighbour; the slice is given back to front. -/
def insertBack (x : EventCount) : List EventCount → List EventCount
  | [] => [x]
  | y :: rest => if less x y then y :: insertBack x rest else x :: y :: rest

/-- Insertion sort with `less`, the accumulator holding the sorted part back to front. -/
def insertionSort (acc : List EventCount) : List EventCount → List EventCount
  | [] => acc.reverse
  | x :: xs => insertionSort (insertBack x acc) xs

/-- `sort.Slice(counts, less)`, library code: modelled by insertion sort (the routine the
library itself runs on slices of at most 12 elements).  Every list that is sorted for
`less` is left as it is by this sort, so with the order of `maps.Values` left free the
results of the model are exactly the sorted arrangements of the map values, whichever
sorting routine produces them. -/
def sortSlice (counts : List EventCount) : List EventCount :=
  insertionSort [] counts

/-- `CountEvents`.  The iteration order of the Go map is not specified: `values` stands
for `slices.Collect(maps.Values(events))` and returns the entries of the map in some
order. -/
def CountEvents (values : List EventCount → List EventCount) (logs : List String) :
    List EventCount :=
  sortSlice (values (countLoop logs []))

/-- The input of the test "multiple same calls with varying user agent". -/
def varyingUserAgent : List String :=
  ["[02/Nov/2018:21:46:42 +0000] GET /users/9933 HTTP/1.1 200 iphone-5",
   "[02/Nov/2018:21:46:43 +0000] GET /users/9933 HTTP/1.1 200 android-7"]

/-- Whether a list is ordered as the package documents: by count descending, equal
counts by method ascending and then by endpoint ascending. -/
def Ordered : List EventCount → Prop
  | a :: b :: rest =>
    (a.Count > b.Count ∨ (a.Count = b.Count ∧ a.Method < b.Method) ∨
      (a.Count = b.Count ∧ a.Method = b.Method ∧ a.Endpoint ≤ b.Endpoint)) ∧
    Ordered (b :: rest)
  | _ => True

end log_parse

namespace concurrentdownloads

/-- What `FetchURL` can return as error. -/
inductive FetchError where
  /-- Error of `http.NewRequestWithContext`. -/
  | request (msg : String)
  /-- Error of `client.Do`: transport failure or cancellation of the context. -/
  | transport (msg : String)
  /-- The error built at line 61 from the URL and the status code. -/
  | status (url : String) (code : Int)
  /-- Error of `io.ReadAll` on the body. -/
  | read (msg : String)
deriving DecidableEq, Repr

/-- The part of `http.Response` that `FetchURL` uses: the status code and what reading
the body gives. -/
structure Response where
  StatusCode : Int
  Body : Except String (List UInt8)

/-- `FetchURL`, given what the two library calls return: `newRequest` for
`http.NewRequestWithContext` and `doResult` for `client.Do`. -/
def FetchURL (url : String) (newRequest : Except String Unit)
    (doResult : Except String Response) : Except FetchError (List UInt8) :=
  match newRequest with
  | .error e => .error (.request e)
  | .ok _ =>
    match doResult with
    | .error e => .error (.transport e)
    | .ok res =>
      if res.StatusCode > 399 then .error (.status url res.StatusCode)
      else
        match res.Body with
        | .error e => .error (.read e)
        | .ok data => .ok data

end concurrentdownloads

namespace orderedlogs

/-- Distance of a position of `printLoop` from the next receive on the first channel. -/
def Loc.offset : Loc → Nat
  | .loadWait1 _ => 12
  | .lenSecond1 _ => 11
  | .lenThird1 _ => 10
  | .recvSecond _ => 9
  | .loadWait2 _ _ => 8
  | .lenThird2 _ _ => 7
  | .recvThird _ _ => 6
  | .print1 _ _ _ => 5
  | .print2 _ _ _ => 4
  | .print3 _ _ _ => 3
  | .loadWait3 => 2
  | .lenFirst3 => 1
  | _ => 0

/-- A bound on the number of steps `printLoop` can still take: 13 per message buffered on
the first channel, plus the rest of the current round, plus the exit. -/
def stepsLeft (o : OrderedLogs) : Nat :=
  match o.loop with
  | .idle => 0
  | .done => 0
  | .exit => 1
  | l => 13 * o.first.buf.length + l.offset + 2

end orderedlogs

namespace orderedlogs

/-- Whether `printLoop` is inside the condition of line 126. -/
def Loc.atLine126 : Loc → Bool
  | .loadWait1 _ | .lenSecond1 _ | .lenThird1 _ => true
  | _ => false

/-- Let `printLoop` evaluate the condition of line 126 with no other goroutine in
between: at most `fuel` steps, stopping as soon as it has left the line. -/
def passLine126 : Nat → OrderedLogs → OrderedLogs
  | 0, o => o
  | fuel + 1, o => if o.loop.atLine126 then passLine126 fuel (step .Loop o) else o

/-- A drain requested while `printLoop` holds the first message of a round, the second
stream has a message queued and the third has none. -/
def drainSecondOnly : OrderedLogs :=
  run [.PrintFirst "one", .PrintSecond "two", .WaitStore, .Loop] (fresh 0)

end orderedlogs

namespace log_parse

/-- Two records that differ only in the status code. -/
def twoStatuses : List String :=
  ["[t] GET /a HTTP/1.1 200 x", "[t] GET /a HTTP/1.1 404 x"]

end log_parse

namespace orderedlogs

/-- Whether `printLoop`, given steps and nothing else, will write to the sink again: it
is inside the emit block, or every queue it has yet to receive from to complete its
current round holds a message. -/
def canEmit (o : OrderedLogs) : Bool :=
  match o.loop with
  | .print1 _ _ _ | .print2 _ _ _ | .print3 _ _ _ => true
  | .loadWait2 _ _ | .lenThird2 _ _ | .recvThird _ _ => !o.third.buf.isEmpty
  | .loadWait1 _ | .lenSecond1 _ | .lenThird1 _ | .recvSecond _ =>
    !o.second.buf.isEmpty && !o.third.buf.isEmpty
  | .recvFirst | .loadWait3 | .lenFirst3 =>
    !o.first.buf.isEmpty && !o.second.buf.isEmpty && !o.third.buf.isEmpty
  | .idle | .exit | .done => false

/-- Number of steps from a position of `printLoop` to its next write to the sink, along
the longest path. -/
def Loc.toWrite : Loc → Nat
  | .loadWait3 => 10
  | .lenFirst3 => 9
  | .recvFirst => 8
  | .loadWait1 _ => 7
  | .lenSecond1 _ => 6
  | .lenThird1 _ => 5
  | .recvSecond _ => 4
  | .loadWait2 _ _ => 3
  | .lenThird2 _ _ => 2
  | .recvThird _ _ => 1
  | _ => 0

/-- One message queued on the first stream and two on each of the others, on a handle of
default size, `printLoop` not yet run. -/
def unevenRounds : OrderedLogs :=
  run [.PrintFirst "a1", .PrintSecond "b1", .PrintSecond "b2", .PrintThird "c1",
    .PrintThird "c2"] (fresh 0)

end orderedlogs

/-! # Theorems -/

namespace orderedlogs

/-! ## Basic facts about schedules -/

theorem run_append (as bs : List Action) (o : OrderedLogs) :
    run (as ++ bs) o = run bs (run as o) := by
  induction as generalizing o with
  | nil => rfl
  | cons a as ih => simp [run, ih]

theorem run_loop_blocked (o : OrderedLogs) (h : printLoop o = none) (n : Nat) :
    run (List.replicate n Action.Loop) o = o := by
  induction n with
  | zero => rfl
  | succ n ih => simp [List.replicate_succ, run, step, h, ih]

/-! ## Enqueue: `PrintFirst`, `PrintSecond`, `PrintThird` -/

theorem New_of_init (o : OrderedLogs) (h : o.init = true) : New o = .ok o := by
  simp [New, h]

/-- C2, counterexample: after `PrintFirst "a"` and `Close` on a handle of size 1 the
queue of the first stream is empty (it does not hold `Size` messages), yet
`PrintFirst "b"` neither appends the message nor fails with "Out of space": it panics
with "send on closed channel". -/
theorem print_on_closed_queue :
    (Close (run [Action.PrintFirst "a"] (fresh 1))).isOk = true ∧
    (Close (run [Action.PrintFirst "a"] (fresh 1))).state.init = true ∧
    (Close (run [Action.PrintFirst "a"] (fresh 1))).state.first.buf.length ≠
      (Close (run [Action.PrintFirst "a"] (fresh 1))).state.first.cap ∧
    PrintFirst "b" (Close (run [Action.PrintFirst "a"] (fresh 1))).state =
      .panic "send on closed channel" (Close (run [Action.PrintFirst "a"] (fresh 1))).state := by
  decide

/-- C2, amended: on an initialised handle whose three queues are open and within
capacity, each of `PrintFirst`, `PrintSecond`, `PrintThird` panics with "Out of space"
exactly when its own queue holds `cap` messages, and then the whole state (three queues
and sink) is the one before the call; otherwise it returns with the message appended at
the tail of its own queue and nothing else changed.  On a closed queue the call panics
with "send on closed channel", again leaving the state as it was.  With capacity 1, a
second enqueue on the same stream right after a successful one panics with
"Out of space". -/
theorem print_enqueue_or_out_of_space (o : OrderedLogs) (log : String)
    (hinit : o.init = true)
    (h1 : o.first.buf.length ≤ o.first.cap) (h2 : o.second.buf.length ≤ o.second.cap)
    (h3 : o.third.buf.length ≤ o.third.cap) :
    (o.first.closed = false →
      (PrintFirst log o = .panic "Out of space" o ↔ o.first.buf.length = o.first.cap) ∧
      (o.first.buf.length ≠ o.first.cap →
        PrintFirst log o = .ok { o with first := { o.first with buf := o.first.buf ++ [log] } }) ∧
      (o.first.cap = 1 → ∀ log2 s, PrintFirst log o = .ok s →
        PrintFirst log2 s = .panic "Out of space" s)) ∧
    (o.second.closed = false →
      (PrintSecond log o = .panic "Out of space" o ↔ o.second.buf.length = o.second.cap) ∧
      (o.second.buf.length ≠ o.second.cap →
        PrintSecond log o =
          .ok { o with second := { o.second with buf := o.second.buf ++ [log] } }) ∧
      (o.second.cap = 1 → ∀ log2 s, PrintSecond log o = .ok s →
        PrintSecond log2 s = .panic "Out of space" s)) ∧
    (o.third.closed = false →
      (PrintThird log o = .panic "Out of space" o ↔ o.third.buf.length = o.third.cap) ∧
      (o.third.buf.length ≠ o.third.cap →
        PrintThird log o = .ok { o with third := { o.third with buf := o.third.buf ++ [log] } }) ∧
      (o.third.cap = 1 → ∀ log2 s, PrintThird log o = .ok s →
        PrintThird log2 s = .panic "Out of space" s)) ∧
    (o.first.closed = true → PrintFirst log o = .panic "send on closed channel" o) ∧
    (o.second.closed = true → PrintSecond log o = .panic "send on closed channel" o) ∧
    (o.third.closed = true → PrintThird log o = .panic "send on closed channel" o) := by
  refine ⟨fun hc => ⟨?_, ?_, ?_⟩, fun hc => ⟨?_, ?_, ?_⟩, fun hc => ⟨?_, ?_, ?_⟩, ?_, ?_, ?_⟩
  · by_cases hlt : o.first.buf.length < o.first.cap
    · simp [PrintFirst, New_of_init o hinit, sendFirst, Chan.trySend, hc, hlt]; omega
    · simp [PrintFirst, New_of_init o hinit, sendFirst, Chan.trySend, hc, hlt]; omega
  · intro hne
    have hlt : o.first.buf.length < o.first.cap := by omega
    simp [PrintFirst, New_of_init o hinit, sendFirst, Chan.trySend, hc, hlt]
  · intro hcap log2 s hs
    by_cases hlt : o.first.buf.length < o.first.cap
    · simp [PrintFirst, New_of_init o hinit, sendFirst, Chan.trySend, hc, hlt] at hs
      subst hs
      have hfull : ¬ (o.first.buf.length + 1 < o.first.cap) := by omega
      simp [PrintFirst, New, hinit, sendFirst, Chan.trySend, hc, hfull]
    · simp [PrintFirst, New_of_init o hinit, sendFirst, Chan.trySend, hc, hlt] at hs
  · by_cases hlt : o.second.buf.length < o.second.cap
    · simp [PrintSecond, New_of_init o hinit, sendSecond, Chan.trySend, hc, hlt]; omega
    · simp [PrintSecond, New_of_init o hinit, sendSecond, Chan.trySend, hc, hlt]; omega
  · intro hne
    have hlt : o.second.buf.length < o.second.cap := by omega
    simp [PrintSecond, New_of_init o hinit, sendSecond, Chan.trySend, hc, hlt]
  · intro hcap log2 s hs
    by_cases hlt : o.second.buf.length < o.second.cap
    · simp [PrintSecond, New_of_init o hinit, sendSecond, Chan.trySend, hc, hlt] at hs
      subst hs
      have hfull : ¬ (o.second.buf.length + 1 < o.second.cap) := by omega
      simp [PrintSecond, New, hinit, sendSecond, Chan.trySend, hc, hfull]
    · simp [PrintSecond, New_of_init o hinit, sendSecond, Chan.trySend, hc, hlt] at hs
  · by_cases hlt : o.third.buf.length < o.third.cap
    · simp [PrintThird, New_of_init o hinit, sendThird, Chan.trySend, hc, hlt]; omega
    · simp [PrintThird, New_of_init o hinit, sendThird, Chan.trySend, hc, hlt]; omega
  · intro hne
    have hlt : o.third.buf.length < o.third.cap := by omega
    simp [PrintThird, New_of_init o hinit, sendThird, Chan.trySend, hc, hlt]
  · intro hcap log2 s hs
    by_cases hlt : o.third.buf.length < o.third.cap
    · simp [PrintThird, New_of_init o hinit, sendThird, Chan.trySend, hc, hlt] at hs
      subst hs
      have hfull : ¬ (o.third.buf.length + 1 < o.third.cap) := by omega
      simp [PrintThird, New, hinit, sendThird, Chan.trySend, hc, hfull]
    · simp [PrintThird, New_of_init o hinit, sendThird, Chan.trySend, hc, hlt] at hs
  · intro hc; simp [PrintFirst, New_of_init o hinit, sendFirst, Chan.trySend, hc]
  · intro hc; simp [PrintSecond, New_of_init o hinit, sendSecond, Chan.trySend, hc]
  · intro hc; simp [PrintThird, New_of_init o hinit, sendThird, Chan.trySend, hc]

end orderedlogs

namespace orderedlogs

/-- Witness for `print_enqueue_or_out_of_space`: on a new handle of size 1 the first
`PrintFirst` appends its message and a second one panics with "Out of space". -/
theorem print_enqueue_or_out_of_space_witness :
    sized1.init = true ∧ sized1.first.buf.length ≤ sized1.first.cap ∧
    sized1.second.buf.length ≤ sized1.second.cap ∧
    sized1.third.buf.length ≤ sized1.third.cap ∧
    (PrintFirst "x" sized1 = .panic "Out of space" sized1 ↔
      sized1.first.buf.length = sized1.first.cap) ∧
    (sized1.first.buf.length ≠ sized1.first.cap →
      PrintFirst "x" sized1 =
        .ok { sized1 with first := { sized1.first with buf := sized1.first.buf ++ ["x"] } }) ∧
    (sized1.first.cap = 1 → ∀ log2 s, PrintFirst "x" sized1 = .ok s →
      PrintFirst log2 s = .panic "Out of space" s) :=
  ⟨by decide, by decide, by decide, by decide,
    (print_enqueue_or_out_of_space sized1 "x" (by decide) (by decide) (by decide)
      (by decide)).1 (by decide)⟩

/-! ## `Close` -/

/-- C4, failing input: on a handle with one message queued on the first stream, the
first `Close` returns (it consumes the message and closes the channel) and the second
`Close` panics with "close of closed channel". -/
theorem Close_twice_panics :
    (∃ s1, Close (run [Action.PrintFirst "a"] (fresh 0)) = .ok s1 ∧
      s1.first = ⟨[], 512, true⟩ ∧ Close s1 = .panic "close of closed channel" s1) := by
  refine ⟨(Close (run [Action.PrintFirst "a"] (fresh 0))).state, ?_, ?_, ?_⟩ <;> decide

end orderedlogs

namespace orderedlogs

/-! ## `printLoop` as a step relation -/

theorem LoopStep.of_printLoop {o s : OrderedLogs} (h : printLoop o = some s) : LoopStep o s := by
  unfold printLoop at h
  cases hl : o.loop <;> simp only [hl] at h
  case idle => cases h
  case recvFirst =>
    unfold Chan.recv at h
    cases hb : o.first.buf with
    | nil =>
      cases hc : o.first.closed <;> simp [hb, hc] at h
      subst h; exact .recvFirstClosed o hl hb hc
    | cons v r =>
      simp [hb] at h
      subst h; exact .recvFirstVal o v r hl hb
  case loadWait1 f =>
    cases hw : o.wait <;> simp [hw] at h <;> subst h
    · simpa [hw] using LoopStep.loadWait1Unset o f hl hw
    · simpa [hw] using LoopStep.loadWait1Set o f hl hw
  case lenSecond1 f =>
    by_cases hb : o.second.buf = [] <;> simp [hb] at h <;> subst h
    · exact .lenSecond1Empty o f hl hb
    · exact .lenSecond1Some o f hl hb
  case lenThird1 f =>
    by_cases hb : o.third.buf = [] <;> simp [hb] at h <;> subst h
    · exact .lenThird1Empty o f hl hb
    · exact .lenThird1Some o f hl hb
  case recvSecond f =>
    unfold Chan.recv at h
    cases hb : o.second.buf with
    | nil =>
      cases hc : o.second.closed <;> simp [hb, hc] at h
      subst h; exact .recvSecondClosed o f hl hb hc
    | cons v r =>
      simp [hb] at h
      subst h; exact .recvSecondVal o f v r hl hb
  case loadWait2 f g =>
    cases hw : o.wait <;> simp [hw] at h <;> subst h
    · simpa [hw] using LoopStep.loadWait2Unset o f g hl hw
    · simpa [hw] using LoopStep.loadWait2Set o f g hl hw
  case lenThird2 f g =>
    by_cases hb : o.third.buf = [] <;> simp [hb] at h <;> subst h
    · exact .lenThird2Empty o f g hl hb
    · exact .lenThird2Some o f g hl hb
  case recvThird f g =>
    unfold Chan.recv at h
    cases hb : o.third.buf with
    | nil =>
      cases hc : o.third.closed <;> simp [hb, hc] at h
      subst h; exact .recvThirdClosed o f g hl hb hc
    | cons v r =>
      simp [hb] at h
      subst h; exact .recvThirdVal o f g v r hl hb
  case print1 f g k => simp at h; subst h; exact .print1 o f g k hl
  case print2 f g k => simp at h; subst h; exact .print2 o f g k hl
  case print3 f g k => simp at h; subst h; exact .print3 o f g k hl
  case loadWait3 =>
    cases hw : o.wait <;> simp [hw] at h <;> subst h
    · simpa [hw] using LoopStep.loadWait3Unset o hl hw
    · simpa [hw] using LoopStep.loadWait3Set o hl hw
  case lenFirst3 =>
    by_cases hb : o.first.buf = [] <;> simp [hb] at h <;> subst h
    · exact .lenFirst3Empty o hl hb
    · exact .lenFirst3Some o hl hb
  case exit => simp at h; subst h; exact .wgDone o hl
  case done => cases h

/-- Induction over a run of `printLoop` steps alone: a property kept by every step of
the relation holds after any number of `Loop` actions. -/
theorem run_loop_induction (P : OrderedLogs → Prop)
    (hstep : ∀ o s, P o → LoopStep o s → P s) (n : Nat) (o : OrderedLogs) (h : P o) :
    P (run (List.replicate n Action.Loop) o) := by
  induction n generalizing o with
  | zero => exact h
  | succ n ih =>
    simp only [List.replicate_succ, run, step]
    cases hp : printLoop o with
    | none => exact ih o h
    | some s => exact ih s (hstep o s h (LoopStep.of_printLoop hp))

end orderedlogs

namespace orderedlogs

/-! ## `Close` and the messages still buffered -/

theorem closeSelect_ok {c c1 : Chan} (h : closeSelect c = .ok c1) : c1.buf <:+ c.buf := by
  unfold closeSelect Chan.recv at h
  cases hb : c.buf with
  | nil =>
    cases hc : c.closed <;> simp [hb, hc] at h
    subst h
    simp [hb]
  | cons v r =>
    cases hc : c.closed <;> simp [hb, hc] at h
    subst h
    exact List.suffix_cons v r

theorem closeFirst_ok {o s : OrderedLogs} (h : closeFirst o = .ok s) :
    s.Out = o.Out ∧ s.loop = o.loop ∧ s.first.buf <:+ o.first.buf ∧ s.second = o.second ∧
      s.third = o.third := by
  unfold closeFirst at h
  cases hi : o.init <;> simp [hi] at h
  · subst h
    exact ⟨rfl, rfl, List.suffix_refl _, rfl, rfl⟩
  · cases hs : closeSelect o.first with
    | error c => simp [hs] at h
    | ok c =>
      simp [hs] at h
      subst h
      exact ⟨rfl, rfl, closeSelect_ok hs, rfl, rfl⟩

theorem closeSecond_ok {o s : OrderedLogs} (h : closeSecond o = .ok s) :
    s.Out = o.Out ∧ s.loop = o.loop ∧ s.first = o.first ∧ s.second.buf <:+ o.second.buf ∧
      s.third = o.third := by
  unfold closeSecond at h
  cases hi : o.init <;> simp [hi] at h
  · subst h
    exact ⟨rfl, rfl, rfl, List.suffix_refl _, rfl⟩
  · cases hs : closeSelect o.second with
    | error c => simp [hs] at h
    | ok c =>
      simp [hs] at h
      subst h
      exact ⟨rfl, rfl, rfl, closeSelect_ok hs, rfl⟩

theorem closeThird_ok {o s : OrderedLogs} (h : closeThird o = .ok s) :
    s.Out = o.Out ∧ s.loop = o.loop ∧ s.first = o.first ∧ s.second = o.second ∧
      s.third.buf <:+ o.third.buf := by
  unfold closeThird at h
  cases hi : o.init <;> simp [hi] at h
  · subst h
    exact ⟨rfl, rfl, rfl, rfl, List.suffix_refl _⟩
  · cases hs : closeSelect o.third with
    | error c => simp [hs] at h
    | ok c =>
      simp [hs] at h
      subst h
      exact ⟨rfl, rfl, rfl, rfl, closeSelect_ok hs⟩

/-- What a `Close` that returns leaves of the handle: sink and position of `printLoop`
as they were, and in every queue a final part of what it held. -/
theorem Close_ok {o s : OrderedLogs} (h : Close o = .ok s) :
    s.Out = o.Out ∧ s.loop = o.loop ∧ s.first.buf <:+ o.first.buf ∧
      s.second.buf <:+ o.second.buf ∧ s.third.buf <:+ o.third.buf := by
  unfold Close at h
  cases h1 : closeFirst o with
  | panic m s1 => simp [h1] at h
  | ok s1 =>
    cases h2 : closeSecond s1 with
    | panic m s2 => simp [h1, h2] at h
    | ok s2 =>
      simp only [h1, h2] at h
      obtain ⟨a1, a2, a3, a4, a5⟩ := closeFirst_ok h1
      obtain ⟨b1, b2, b3, b4, b5⟩ := closeSecond_ok h2
      obtain ⟨c1, c2, c3, c4, c5⟩ := closeThird_ok h
      refine ⟨by rw [c1, b1, a1], by rw [c2, b2, a2], ?_, ?_, ?_⟩
      · rw [c3, b3]; exact a3
      · rw [c4, ← a4]; exact b4
      · rw [← a5, ← b5]; exact c5

/-- A step of `printLoop` that starts where no write is ahead writes nothing and ends
where no write is ahead. -/
theorem LoopStep.canEmit_false {o s : OrderedLogs} (h : LoopStep o s)
    (hq : canEmit o = false) : s.Out = o.Out ∧ canEmit s = false := by
  cases h <;> simp_all [canEmit]

theorem run_loop_canEmit_false (n : Nat) (o : OrderedLogs) (hq : canEmit o = false) :
    (run (List.replicate n Action.Loop) o).Out = o.Out := by
  have key := run_loop_induction (fun s => s.Out = o.Out ∧ canEmit s = false)
    (fun a b ha hab => by
      have := LoopStep.canEmit_false hab ha.2
      exact ⟨this.1.trans ha.1, this.2⟩) n o ⟨rfl, hq⟩
  exact key.1

theorem length_line_pos (out f : String) : out.length < (out ++ line f).length := by
  simp [line, String.length_append]
  have : "\n".length = 1 := rfl
  omega

/-- Where a write is ahead, `printLoop` can move, and its step either writes a line or
brings it nearer to the write. -/
theorem canEmit_step (o : OrderedLogs) (h : canEmit o = true) :
    ∃ s, printLoop o = some s ∧
      (o.Out.length < s.Out.length ∨
        (s.Out = o.Out ∧ canEmit s = true ∧ s.loop.toWrite < o.loop.toWrite)) := by
  unfold canEmit at h
  unfold printLoop
  cases hl : o.loop <;> simp only [hl] at h ⊢
  case idle => cases h
  case exit => cases h
  case done => cases h
  case recvFirst =>
    cases hb : o.first.buf with
    | nil => simp [hb] at h
    | cons v r =>
      refine ⟨{ o with first := { o.first with buf := r }, loop := .loadWait1 v },
        by simp [Chan.recv, hb], Or.inr ⟨rfl, ?_, ?_⟩⟩
      · simpa [canEmit, hb] using h
      · simp [Loc.toWrite]
  case loadWait1 f =>
    refine ⟨_, rfl, Or.inr ⟨rfl, ?_, ?_⟩⟩
    · cases hw : o.wait <;> simpa [canEmit, hw] using h
    · cases hw : o.wait <;> simp [Loc.toWrite, hw]
  case lenSecond1 f =>
    have hb : o.second.buf ≠ [] := by
      intro hb
      simp [hb] at h
    refine ⟨_, rfl, Or.inr ⟨rfl, ?_, ?_⟩⟩
    · simpa [canEmit, hb] using h
    · simp [Loc.toWrite, hb]
  case lenThird1 f =>
    have hb : o.third.buf ≠ [] := by
      intro hb
      simp [hb] at h
    refine ⟨_, rfl, Or.inr ⟨rfl, ?_, ?_⟩⟩
    · simpa [canEmit, hb] using h
    · simp [Loc.toWrite, hb]
  case recvSecond f =>
    cases hb : o.second.buf with
    | nil => simp [hb] at h
    | cons v r =>
      refine ⟨{ o with second := { o.second with buf := r }, loop := .loadWait2 f v },
        by simp [Chan.recv, hb], Or.inr ⟨rfl, ?_, ?_⟩⟩
      · simpa [canEmit, hb] using h
      · simp [Loc.toWrite]
  case loadWait2 f g =>
    refine ⟨_, rfl, Or.inr ⟨rfl, ?_, ?_⟩⟩
    · cases hw : o.wait <;> simpa [canEmit, hw] using h
    · cases hw : o.wait <;> simp [Loc.toWrite, hw]
  case lenThird2 f g =>
    have hb : o.third.buf ≠ [] := by
      intro hb
      simp [hb] at h
    refine ⟨_, rfl, Or.inr ⟨rfl, ?_, ?_⟩⟩
    · simp [canEmit, hb]
    · simp [Loc.toWrite, hb]
  case recvThird f g =>
    cases hb : o.third.buf with
    | nil => simp [hb] at h
    | cons v r =>
      refine ⟨{ o with third := { o.third with buf := r }, loop := .print1 f g v },
        by simp [Chan.recv, hb], Or.inr ⟨rfl, ?_, ?_⟩⟩
      · simp [canEmit]
      · simp [Loc.toWrite]
  case print1 f g k => exact ⟨_, rfl, Or.inl (length_line_pos _ _)⟩
  case print2 f g k => exact ⟨_, rfl, Or.inl (length_line_pos _ _)⟩
  case print3 f g k => exact ⟨_, rfl, Or.inl (length_line_pos _ _)⟩
  case loadWait3 =>
    refine ⟨_, rfl, Or.inr ⟨rfl, ?_, ?_⟩⟩
    · cases hw : o.wait <;> simpa [canEmit, hw] using h
    · cases hw : o.wait <;> simp [Loc.toWrite, hw]
  case lenFirst3 =>
    have hb : o.first.buf ≠ [] := by
      intro hb
      simp [hb] at h
    refine ⟨_, rfl, Or.inr ⟨rfl, ?_, ?_⟩⟩
    · simpa [canEmit, hb] using h
    · simp [Loc.toWrite, hb]

/-- Where a write is ahead, some number of `printLoop` steps makes the sink longer. -/
theorem canEmit_writes (k : Nat) (o : OrderedLogs) (hk : o.loop.toWrite ≤ k)
    (h : canEmit o = true) :
    ∃ n, o.Out.length < (run (List.replicate n Action.Loop) o).Out.length := by
  induction k generalizing o with
  | zero =>
    obtain ⟨s, hs, hw | ⟨-, -, hlt⟩⟩ := canEmit_step o h
    · exact ⟨1, by simpa [List.replicate, run, step, hs] using hw⟩
    · omega
  | succ k ih =>
    obtain ⟨s, hs, hw | ⟨hout, hc, hlt⟩⟩ := canEmit_step o h
    · exact ⟨1, by simpa [List.replicate, run, step, hs] using hw⟩
    · obtain ⟨n, hn⟩ := ih s (by omega) hc
      refine ⟨n + 1, ?_⟩
      rw [hout] at hn
      simpa [List.replicate_succ, run, step, hs] using hn

/-- C3, counterexample: with two complete rounds queued, `Close` returns with an empty
sink, but the second round is still buffered in the closed channels, and twelve further
steps of `printLoop` write it to the sink. -/
theorem Close_leaves_buffered_round :
    (Close twoRounds).isOk = true ∧ (Close twoRounds).state.Out = "" ∧
    (Close twoRounds).state.first.buf = ["a2"] ∧
    (run (List.replicate 12 Action.Loop) (Close twoRounds).state).Out = "a2\nb2\nc2\n" ∧
    (run (List.replicate 12 Action.Loop) (Close twoRounds).state).Out ≠
      (Close twoRounds).state.Out := by
  decide

/-- C3, amended: let `Close` return, on any handle.  It has written nothing to the sink,
has not moved `printLoop` and has added no message to a queue (every queue holds a final
part of what it held).  The sink then stays, after any number of further `printLoop`
steps, what it was at the moment of `Close` exactly when `printLoop` is not started or
has left its loop, or is outside its emit block while some queue it has yet to receive
from to complete its current round is empty (whatever the other queues still hold).  In
every other case some number of `printLoop` steps does write to the sink. -/
theorem Close_then_loop_sink (o s1 : OrderedLogs) (hclose : Close o = .ok s1) :
    s1.Out = o.Out ∧ s1.loop = o.loop ∧
    s1.first.buf <:+ o.first.buf ∧ s1.second.buf <:+ o.second.buf ∧
    s1.third.buf <:+ o.third.buf ∧
    (canEmit s1 = false ↔ ∀ n, (run (List.replicate n Action.Loop) s1).Out = o.Out) ∧
    (canEmit s1 = true ↔ ∃ n, (run (List.replicate n Action.Loop) s1).Out ≠ o.Out) := by
  obtain ⟨hout, hloop, h1, h2, h3⟩ := Close_ok hclose
  have hq : canEmit s1 = false → ∀ n, (run (List.replicate n Action.Loop) s1).Out = o.Out :=
    fun hc n => (run_loop_canEmit_false n s1 hc).trans hout
  have hw : canEmit s1 = true → ∃ n, (run (List.replicate n Action.Loop) s1).Out ≠ o.Out := by
    intro hc
    obtain ⟨n, hn⟩ := canEmit_writes _ s1 (le_refl _) hc
    refine ⟨n, fun heq => ?_⟩
    rw [heq, hout] at hn
    exact lt_irrefl _ hn
  refine ⟨hout, hloop, h1, h2, h3, ⟨hq, fun hall => ?_⟩, ⟨hw, fun hex => ?_⟩⟩
  · cases hc : canEmit s1 with
    | false => rfl
    | true =>
      obtain ⟨n, hn⟩ := hw hc
      exact absurd (hall n) hn
  · cases hc : canEmit s1 with
    | true => rfl
    | false =>
      obtain ⟨n, hn⟩ := hex
      exact absurd (hq hc n) hn

/-- Witness for `Close_then_loop_sink`: one message queued on the first stream and two on
each of the others.  After `Close` the second and the third queue still hold a message,
the first is empty and `printLoop` is at its receive from it: the sink stays empty. -/
theorem Close_then_loop_sink_witness :
    Close unevenRounds = .ok (Close unevenRounds).state ∧
    (Close unevenRounds).state.first.buf = [] ∧
    (Close unevenRounds).state.second.buf = ["b2"] ∧
    (Close unevenRounds).state.third.buf = ["c2"] ∧
    canEmit (Close unevenRounds).state = false ∧
    ((Close unevenRounds).state.Out = unevenRounds.Out ∧
      (Close unevenRounds).state.loop = unevenRounds.loop ∧
      (Close unevenRounds).state.first.buf <:+ unevenRounds.first.buf ∧
      (Close unevenRounds).state.second.buf <:+ unevenRounds.second.buf ∧
      (Close unevenRounds).state.third.buf <:+ unevenRounds.third.buf ∧
      (canEmit (Close unevenRounds).state = false ↔
        ∀ n, (run (List.replicate n Action.Loop) (Close unevenRounds).state).Out =
          unevenRounds.Out) ∧
      (canEmit (Close unevenRounds).state = true ↔
        ∃ n, (run (List.replicate n Action.Loop) (Close unevenRounds).state).Out ≠
          unevenRounds.Out)) :=
  ⟨by decide, by decide, by decide, by decide, by decide,
    Close_then_loop_sink unevenRounds (Close unevenRounds).state (by decide)⟩

/-! ## `Wait` -/

/-- C5, failing input: `New` then `Wait` with nothing produced, and also one round
produced and fully emitted before `Wait`.  In both, whatever number of steps the
scheduler gives `printLoop` after the flag is set, the state stays the same: the flag is
set, no channel is closed, and `printLoop` sits in the receive on the empty first
channel and cannot move, so the wait group never reaches zero. -/
theorem Wait_never_returns (n : Nat) :
    run (Action.New :: Action.WaitStore :: List.replicate n Action.Loop) (fresh 0) =
      blockedWaiting "" ∧
    run (emittedThenWait ++ List.replicate n Action.Loop) (fresh 0) =
      blockedWaiting "one\ntwo\nthree\n" ∧
    (∀ out, printLoop (blockedWaiting out) = none) := by
  refine ⟨?_, ?_, fun out => rfl⟩
  · show run (List.replicate n Action.Loop) (run [Action.New, Action.WaitStore] (fresh 0)) = _
    rw [run_loop_blocked _ (by decide)]
    decide
  · rw [run_append, run_loop_blocked _ (by decide)]
    decide

end orderedlogs

namespace orderedlogs

/-! ## The sink holds complete rounds -/

theorem rounds_snoc (p1 p2 p3 : List String) (a b c : String)
    (h12 : p1.length = p2.length) (h23 : p2.length = p3.length) :
    rounds (p1 ++ [a]) (p2 ++ [b]) (p3 ++ [c]) = rounds p1 p2 p3 ++ (line a ++ (line b ++ line c)) := by
  induction p1 generalizing p2 p3 with
  | nil =>
    cases p2 with
    | nil =>
      cases p3 with
      | nil => simp [rounds, String.append_assoc]
      | cons z p3 => simp at h23
    | cons y p2 => simp at h12
  | cons x p1 ih =>
    cases p2 with
    | nil => simp at h12
    | cons y p2 =>
      cases p3 with
      | nil => simp at h23
      | cons z p3 =>
        simp only [List.length_cons, Nat.add_right_cancel_iff] at h12 h23
        simp [rounds, ih p2 p3 h12 h23, String.append_assoc]

theorem written_of_not_emitting {l : Loc} (h : l.emitting = false) : l.written = "" := by
  cases l <;> simp_all [Loc.emitting, Loc.written]

theorem sublist_drop_mid {p t b e : List String} (h : (p ++ t ++ b).Sublist e) :
    (p ++ b).Sublist e :=
  List.Sublist.trans
    (List.Sublist.append (List.sublist_append_left p t) (List.Sublist.refl b)) h

theorem sublist_drop_head {p t e : List String} (v : String) (r : List String)
    (h : (p ++ t ++ v :: r).Sublist e) : (p ++ t ++ r).Sublist e :=
  List.Sublist.trans
    (List.Sublist.append (List.Sublist.refl _) (List.sublist_cons_self v r)) h

end orderedlogs

namespace orderedlogs

theorem sublist_drop_one {p b e : List String} {v : String} (h : (p ++ v :: b).Sublist e) :
    (p ++ b).Sublist e :=
  List.Sublist.trans
    (List.Sublist.append (List.Sublist.refl p) (List.sublist_cons_self v b)) h

theorem LoopStep.sinkInv {o s : OrderedLogs} {e1 e2 e3 : List String} (h : LoopStep o s)
    (hinv : SinkInv o e1 e2 e3) : SinkInv s e1 e2 e3 := by
  obtain ⟨hidle, p1, p2, p3, h12, h23, hout, hs1, hs2, hs3⟩ := hinv
  cases h
  case print3 f g k hl =>
    refine ⟨by intro hi; simp_all, p1 ++ [f], p2 ++ [g], p3 ++ [k], by simp [h12],
      by simp [h23], ?_, ?_, ?_, ?_⟩
    · simp [hl, Loc.written, rounds_snoc p1 p2 p3 f g k h12 h23, hout, String.append_assoc]
    · simpa [hl, Loc.taken1] using hs1
    · simpa [hl, Loc.taken2] using hs2
    · simpa [hl, Loc.taken3] using hs3
  all_goals
    refine ⟨by intro hi; simp_all, p1, p2, p3, h12, h23, ?_, ?_, ?_, ?_⟩
  all_goals simp_all [Loc.written, Loc.taken1, Loc.taken2, Loc.taken3, String.append_assoc]
  all_goals
    first
    | exact sublist_drop_one hs1
    | exact sublist_drop_one hs2

theorem sinkInv_mono {o : OrderedLogs} {e1 e2 e3 : List String} (hinv : SinkInv o e1 e2 e3)
    (x1 x2 x3 : List String) : SinkInv o (e1 ++ x1) (e2 ++ x2) (e3 ++ x3) := by
  obtain ⟨hidle, p1, p2, p3, h12, h23, hout, hs1, hs2, hs3⟩ := hinv
  exact ⟨hidle, p1, p2, p3, h12, h23, hout, List.sublist_append_of_sublist_left hs1,
    List.sublist_append_of_sublist_left hs2, List.sublist_append_of_sublist_left hs3⟩

theorem New_uninit (o : OrderedLogs) (hi : o.init = false) :
    (∃ m sz, New o = .panic m { o with Size := sz }) ∨
    (∃ sz : Int, New o = .ok
      { o with
        Size := sz
        first := Chan.make (capacity o.Size)
        second := Chan.make (capacity o.Size)
        third := Chan.make (capacity o.Size)
        init := true
        loop := .recvFirst }) := by
  by_cases hneg : (if o.Size = 0 then (512 : Int) else o.Size) < 0
  · left
    exact ⟨"makechan: size out of range", if o.Size = 0 then (512 : Int) else o.Size,
      by simp only [New, hi, Bool.false_eq_true, if_false, hneg, if_true]⟩
  · right
    refine ⟨if o.Size = 0 then (512 : Int) else o.Size, ?_⟩
    simp only [New, hi, Bool.false_eq_true, if_false, hneg, capacity]
    by_cases h0 : o.Size = 0 <;> simp [h0]

theorem sinkInv_New {o : OrderedLogs} {e1 e2 e3 : List String} (hinv : SinkInv o e1 e2 e3) :
    SinkInv (New o).state e1 e2 e3 := by
  by_cases hi : o.init = true
  · simpa [New, hi, Outcome.state] using hinv
  · obtain ⟨hidle, p1, p2, p3, h12, h23, hout, hs1, hs2, hs3⟩ := hinv
    have hl := hidle (by simpa using hi)
    simp only [hl, Loc.written, Loc.taken1, Loc.taken2, Loc.taken3, List.append_nil] at hout hs1 hs2 hs3
    rcases New_uninit o (by simpa using hi) with ⟨m, sz, h⟩ | ⟨sz, h⟩
    · rw [h]
      exact ⟨fun _ => hl, p1, p2, p3, h12, h23, by simp [Outcome.state, hl, Loc.written, hout],
        by simpa [Outcome.state, hl, Loc.taken1] using hs1,
        by simpa [Outcome.state, hl, Loc.taken2] using hs2,
        by simpa [Outcome.state, hl, Loc.taken3] using hs3⟩
    · rw [h]
      refine ⟨by simp [Outcome.state], p1, p2, p3, h12, h23, ?_, ?_, ?_, ?_⟩
      · simp [Outcome.state, Loc.written, hout]
      · simpa [Outcome.state, Loc.taken1, Chan.make] using (List.sublist_append_left p1 _).trans hs1
      · simpa [Outcome.state, Loc.taken2, Chan.make] using (List.sublist_append_left p2 _).trans hs2
      · simpa [Outcome.state, Loc.taken3, Chan.make] using (List.sublist_append_left p3 _).trans hs3

theorem sendFirst_cases (m : String) (o : OrderedLogs) :
    (sendFirst m o = .ok { o with first := { o.first with buf := o.first.buf ++ [m] } }) ∨
    (∃ msg, sendFirst m o = .panic msg o) := by
  unfold sendFirst Chan.trySend
  by_cases hc : o.first.closed = true
  · right; exact ⟨"send on closed channel", by simp [hc]⟩
  · by_cases hlt : o.first.buf.length < o.first.cap
    · left; simp [hc, hlt]
    · right; exact ⟨"Out of space", by simp [hc, hlt]⟩

theorem sendSecond_cases (m : String) (o : OrderedLogs) :
    (sendSecond m o = .ok { o with second := { o.second with buf := o.second.buf ++ [m] } }) ∨
    (∃ msg, sendSecond m o = .panic msg o) := by
  unfold sendSecond Chan.trySend
  by_cases hc : o.second.closed = true
  · right; exact ⟨"send on closed channel", by simp [hc]⟩
  · by_cases hlt : o.second.buf.length < o.second.cap
    · left; simp [hc, hlt]
    · right; exact ⟨"Out of space", by simp [hc, hlt]⟩

theorem sendThird_cases (m : String) (o : OrderedLogs) :
    (sendThird m o = .ok { o with third := { o.third with buf := o.third.buf ++ [m] } }) ∨
    (∃ msg, sendThird m o = .panic msg o) := by
  unfold sendThird Chan.trySend
  by_cases hc : o.third.closed = true
  · right; exact ⟨"send on closed channel", by simp [hc]⟩
  · by_cases hlt : o.third.buf.length < o.third.cap
    · left; simp [hc, hlt]
    · right; exact ⟨"Out of space", by simp [hc, hlt]⟩

/-- `PrintFirst` is `New` followed by the send, unless `New` panics. -/
theorem PrintFirst_cases (m : String) (o : OrderedLogs) :
    (PrintFirst m o = sendFirst m (New o).state ∧ (New o).isOk = true) ∨
    (PrintFirst m o = New o ∧ (New o).isOk = false) := by
  unfold PrintFirst
  cases h : New o <;> simp [Outcome.state, Outcome.isOk]

theorem PrintSecond_cases (m : String) (o : OrderedLogs) :
    (PrintSecond m o = sendSecond m (New o).state ∧ (New o).isOk = true) ∨
    (PrintSecond m o = New o ∧ (New o).isOk = false) := by
  unfold PrintSecond
  cases h : New o <;> simp [Outcome.state, Outcome.isOk]

theorem PrintThird_cases (m : String) (o : OrderedLogs) :
    (PrintThird m o = sendThird m (New o).state ∧ (New o).isOk = true) ∨
    (PrintThird m o = New o ∧ (New o).isOk = false) := by
  unfold PrintThird
  cases h : New o <;> simp [Outcome.state, Outcome.isOk]

theorem sinkInv_PrintFirst {o : OrderedLogs} {e1 e2 e3 : List String} (m : String)
    (hinv : SinkInv o e1 e2 e3) :
    SinkInv (PrintFirst m o).state
      (e1 ++ if (PrintFirst m o).isOk then [m] else []) e2 e3 := by
  have hN := sinkInv_New hinv
  rcases PrintFirst_cases m o with ⟨h, _⟩ | ⟨h, hf⟩
  · rw [h]
    rcases sendFirst_cases m (New o).state with h2 | ⟨msg, h2⟩
    · rw [h2]
      obtain ⟨hidle, p1, p2, p3, h12, h23, hout, hs1, hs2, hs3⟩ := hN
      refine ⟨hidle, p1, p2, p3, h12, h23, hout, ?_, hs2, hs3⟩
      simpa [Outcome.state, Outcome.isOk, ← List.append_assoc] using
        List.Sublist.append hs1 (List.Sublist.refl [m])
    · rw [h2]
      simpa [Outcome.state, Outcome.isOk] using hN
  · rw [h]
    simpa [hf] using hN

theorem sinkInv_PrintSecond {o : OrderedLogs} {e1 e2 e3 : List String} (m : String)
    (hinv : SinkInv o e1 e2 e3) :
    SinkInv (PrintSecond m o).state
      e1 (e2 ++ if (PrintSecond m o).isOk then [m] else []) e3 := by
  have hN := sinkInv_New hinv
  rcases PrintSecond_cases m o with ⟨h, _⟩ | ⟨h, hf⟩
  · rw [h]
    rcases sendSecond_cases m (New o).state with h2 | ⟨msg, h2⟩
    · rw [h2]
      obtain ⟨hidle, p1, p2, p3, h12, h23, hout, hs1, hs2, hs3⟩ := hN
      refine ⟨hidle, p1, p2, p3, h12, h23, hout, hs1, ?_, hs3⟩
      simpa [Outcome.state, Outcome.isOk, ← List.append_assoc] using
        List.Sublist.append hs2 (List.Sublist.refl [m])
    · rw [h2]
      simpa [Outcome.state, Outcome.isOk] using hN
  · rw [h]
    simpa [hf] using hN

theorem sinkInv_PrintThird {o : OrderedLogs} {e1 e2 e3 : List String} (m : String)
    (hinv : SinkInv o e1 e2 e3) :
    SinkInv (PrintThird m o).state
      e1 e2 (e3 ++ if (PrintThird m o).isOk then [m] else []) := by
  have hN := sinkInv_New hinv
  rcases PrintThird_cases m o with ⟨h, _⟩ | ⟨h, hf⟩
  · rw [h]
    rcases sendThird_cases m (New o).state with h2 | ⟨msg, h2⟩
    · rw [h2]
      obtain ⟨hidle, p1, p2, p3, h12, h23, hout, hs1, hs2, hs3⟩ := hN
      refine ⟨hidle, p1, p2, p3, h12, h23, hout, hs1, hs2, ?_⟩
      simpa [Outcome.state, Outcome.isOk, ← List.append_assoc] using
        List.Sublist.append hs3 (List.Sublist.refl [m])
    · rw [h2]
      simpa [Outcome.state, Outcome.isOk] using hN
  · rw [h]
    simpa [hf] using hN

end orderedlogs

namespace orderedlogs

theorem closeSelect_cases (c : Chan) :
    ∃ c1, c1.buf = c.buf.tail ∧ (closeSelect c = .ok c1 ∨ closeSelect c = .error c1) := by
  unfold closeSelect Chan.recv
  cases hb : c.buf with
  | nil =>
    cases hc : c.closed
    · exact ⟨c, by simp [hb], Or.inl (by simp)⟩
    · exact ⟨c, by simp [hb], Or.inr (by simp)⟩
  | cons v r =>
    cases hc : c.closed
    · exact ⟨{ c with buf := r, closed := true }, by simp, Or.inl (by simp [hc])⟩
    · exact ⟨{ c with buf := r }, by simp, Or.inr (by simp [hc])⟩

theorem closeFirst_state (o : OrderedLogs) :
    ∃ c1, c1.buf.Sublist o.first.buf ∧ (closeFirst o).state = { o with first := c1 } := by
  unfold closeFirst
  by_cases hi : o.init = true
  · obtain ⟨c1, hb, h | h⟩ := closeSelect_cases o.first
    · exact ⟨c1, hb ▸ List.tail_sublist _, by simp [hi, h, Outcome.state]⟩
    · exact ⟨c1, hb ▸ List.tail_sublist _, by simp [hi, h, Outcome.state]⟩
  · refine ⟨o.first, List.Sublist.refl _, ?_⟩
    have h : (!o.init) = true := by simp [hi]
    rw [if_pos h]; rfl

theorem closeSecond_state (o : OrderedLogs) :
    ∃ c1, c1.buf.Sublist o.second.buf ∧ (closeSecond o).state = { o with second := c1 } := by
  unfold closeSecond
  by_cases hi : o.init = true
  · obtain ⟨c1, hb, h | h⟩ := closeSelect_cases o.second
    · exact ⟨c1, hb ▸ List.tail_sublist _, by simp [hi, h, Outcome.state]⟩
    · exact ⟨c1, hb ▸ List.tail_sublist _, by simp [hi, h, Outcome.state]⟩
  · refine ⟨o.second, List.Sublist.refl _, ?_⟩
    have h : (!o.init) = true := by simp [hi]
    rw [if_pos h]; rfl

theorem closeThird_state (o : OrderedLogs) :
    ∃ c1, c1.buf.Sublist o.third.buf ∧ (closeThird o).state = { o with third := c1 } := by
  unfold closeThird
  by_cases hi : o.init = true
  · obtain ⟨c1, hb, h | h⟩ := closeSelect_cases o.third
    · exact ⟨c1, hb ▸ List.tail_sublist _, by simp [hi, h, Outcome.state]⟩
    · exact ⟨c1, hb ▸ List.tail_sublist _, by simp [hi, h, Outcome.state]⟩
  · refine ⟨o.third, List.Sublist.refl _, ?_⟩
    have h : (!o.init) = true := by simp [hi]
    rw [if_pos h]; rfl

theorem sinkInv_closeFirst {o : OrderedLogs} {e1 e2 e3 : List String}
    (hinv : SinkInv o e1 e2 e3) : SinkInv (closeFirst o).state e1 e2 e3 := by
  obtain ⟨c1, hsub, hst⟩ := closeFirst_state o
  obtain ⟨hidle, p1, p2, p3, h12, h23, hout, hs1, hs2, hs3⟩ := hinv
  rw [hst]
  exact ⟨hidle, p1, p2, p3, h12, h23, hout,
    (List.Sublist.append (List.Sublist.refl _) hsub).trans hs1, hs2, hs3⟩

theorem sinkInv_closeSecond {o : OrderedLogs} {e1 e2 e3 : List String}
    (hinv : SinkInv o e1 e2 e3) : SinkInv (closeSecond o).state e1 e2 e3 := by
  obtain ⟨c1, hsub, hst⟩ := closeSecond_state o
  obtain ⟨hidle, p1, p2, p3, h12, h23, hout, hs1, hs2, hs3⟩ := hinv
  rw [hst]
  exact ⟨hidle, p1, p2, p3, h12, h23, hout, hs1,
    (List.Sublist.append (List.Sublist.refl _) hsub).trans hs2, hs3⟩

theorem sinkInv_closeThird {o : OrderedLogs} {e1 e2 e3 : List String}
    (hinv : SinkInv o e1 e2 e3) : SinkInv (closeThird o).state e1 e2 e3 := by
  obtain ⟨c1, hsub, hst⟩ := closeThird_state o
  obtain ⟨hidle, p1, p2, p3, h12, h23, hout, hs1, hs2, hs3⟩ := hinv
  rw [hst]
  exact ⟨hidle, p1, p2, p3, h12, h23, hout, hs1, hs2,
    (List.Sublist.append (List.Sublist.refl _) hsub).trans hs3⟩

theorem sinkInv_waitStore {o : OrderedLogs} {e1 e2 e3 : List String}
    (hinv : SinkInv o e1 e2 e3) : SinkInv (waitStore o).state e1 e2 e3 := by
  have key : ∃ w, (waitStore o).state = { o with wait := w } := by
    unfold waitStore
    by_cases hi : (!o.init) = true
    · rw [if_pos hi]; exact ⟨o.wait, rfl⟩
    · rw [if_neg hi]
      by_cases hw : o.wait = true
      · rw [if_pos hw]; exact ⟨o.wait, rfl⟩
      · rw [if_neg hw]; exact ⟨true, rfl⟩
  obtain ⟨w, hw⟩ := key
  rw [hw]
  exact hinv

theorem sinkInv_loop {o : OrderedLogs} {e1 e2 e3 : List String}
    (hinv : SinkInv o e1 e2 e3) : SinkInv (step Action.Loop o) e1 e2 e3 := by
  simp only [step]
  cases h : printLoop o with
  | none => simpa using hinv
  | some s => simpa using (LoopStep.of_printLoop h).sinkInv hinv

theorem sinkInv_run (acts : List Action) (o : OrderedLogs) (e1 e2 e3 : List String)
    (hinv : SinkInv o e1 e2 e3) :
    SinkInv (run acts o) (e1 ++ accepted1 acts o) (e2 ++ accepted2 acts o)
      (e3 ++ accepted3 acts o) := by
  induction acts generalizing o e1 e2 e3 with
  | nil => simpa [run, accepted1, accepted2, accepted3] using hinv
  | cons a as ih =>
    cases a with
    | New =>
      simpa [run, accepted1, accepted2, accepted3] using
        ih (step .New o) e1 e2 e3 (by simpa [step, Action.call] using sinkInv_New hinv)
    | PrintFirst m =>
      simp only [run, accepted1, accepted2, accepted3]
      rw [← List.append_assoc]
      exact ih (step (.PrintFirst m) o) _ e2 e3
        (by simpa [step, Action.call] using sinkInv_PrintFirst m hinv)
    | PrintSecond m =>
      simp only [run, accepted1, accepted2, accepted3]
      rw [← List.append_assoc]
      exact ih (step (.PrintSecond m) o) e1 _ e3
        (by simpa [step, Action.call] using sinkInv_PrintSecond m hinv)
    | PrintThird m =>
      simp only [run, accepted1, accepted2, accepted3]
      rw [← List.append_assoc]
      exact ih (step (.PrintThird m) o) e1 e2 _
        (by simpa [step, Action.call] using sinkInv_PrintThird m hinv)
    | WaitStore =>
      simpa [run, accepted1, accepted2, accepted3] using
        ih (step .WaitStore o) e1 e2 e3 (by simpa [step, Action.call] using sinkInv_waitStore hinv)
    | CloseFirst =>
      simpa [run, accepted1, accepted2, accepted3] using
        ih (step .CloseFirst o) e1 e2 e3 (by simpa [step, Action.call] using sinkInv_closeFirst hinv)
    | CloseSecond =>
      simpa [run, accepted1, accepted2, accepted3] using
        ih (step .CloseSecond o) e1 e2 e3 (by simpa [step, Action.call] using sinkInv_closeSecond hinv)
    | CloseThird =>
      simpa [run, accepted1, accepted2, accepted3] using
        ih (step .CloseThird o) e1 e2 e3 (by simpa [step, Action.call] using sinkInv_closeThird hinv)
    | Loop =>
      simpa [run, accepted1, accepted2, accepted3] using
        ih (step .Loop o) e1 e2 e3 (sinkInv_loop hinv)

theorem sinkInv_fresh (size : Int) : SinkInv (fresh size) [] [] [] :=
  ⟨fun _ => rfl, [], [], [], rfl, rfl, by simp [fresh, Loc.written, rounds], by simp [fresh, Loc.taken1, Chan.make],
    by simp [fresh, Loc.taken2, Chan.make], by simp [fresh, Loc.taken3, Chan.make]⟩

/-- C6, counterexample: after one round is queued and `printLoop` has executed line 144
(six steps), the sink holds the single line "one": it is not the output of any number
of complete rounds drawn from the queued messages. -/
theorem sink_mid_round :
    (run ([Action.PrintFirst "one", Action.PrintSecond "two", Action.PrintThird "three"] ++
        List.replicate 6 Action.Loop) (fresh 0)).Out = "one\n" ∧
    ¬ ∃ p1 p2 p3 : List String, p1.length = p2.length ∧ p2.length = p3.length ∧
      (run ([Action.PrintFirst "one", Action.PrintSecond "two", Action.PrintThird "three"] ++
        List.replicate 6 Action.Loop) (fresh 0)).Out = rounds p1 p2 p3 ∧
      p1.Sublist ["one"] ∧ p2.Sublist ["two"] ∧ p3.Sublist ["three"] := by
  refine ⟨by decide, ?_⟩
  rintro ⟨p1, p2, p3, h12, h23, hout, hs1, hs2, hs3⟩
  have hout2 : "one\n" = rounds p1 p2 p3 := hout
  rcases List.sublist_singleton.mp hs1 with rfl | rfl <;>
    rcases List.sublist_singleton.mp hs2 with rfl | rfl <;>
    rcases List.sublist_singleton.mp hs3 with rfl | rfl <;>
    revert hout2 <;> decide

/-- C6, amended: take a handle initialised by a call of `New` that has completed (on a
new handle, with no other call overlapping it).  In every state reachable from it under
any interleaving of further `New` calls, `PrintFirst`/`PrintSecond`/`PrintThird`, the
flag store of `Wait`, the selects of `Close` and `printLoop` steps, the sink is the
output of complete rounds (three newline-terminated lines each: first, second, third)
followed by the lines of the current round that `printLoop` has already written (none
outside lines 145–146); in particular it is exactly complete rounds whenever `printLoop`
is not inside its emit block.  For each stream the lines at its position in the
successive rounds form a subsequence of the messages successfully queued on that stream.
Calls that overlap the initialisation are not covered. -/
theorem sink_is_rounds (size : Int) (o0 : OrderedLogs) (acts : List Action)
    (hnew : New (fresh size) = .ok o0) :
    ∃ p1 p2 p3 : List String, p1.length = p2.length ∧ p2.length = p3.length ∧
      (run acts o0).Out = rounds p1 p2 p3 ++ (run acts o0).loop.written ∧
      ((run acts o0).loop.emitting = false → (run acts o0).Out = rounds p1 p2 p3) ∧
      p1.Sublist (accepted1 acts o0) ∧
      p2.Sublist (accepted2 acts o0) ∧
      p3.Sublist (accepted3 acts o0) := by
  have h0 : SinkInv o0 [] [] [] := by
    have := sinkInv_New (sinkInv_fresh size)
    rwa [hnew] at this
  obtain ⟨_, p1, p2, p3, h12, h23, hout, hs1, hs2, hs3⟩ := sinkInv_run acts o0 [] [] [] h0
  refine ⟨p1, p2, p3, h12, h23, hout, fun he => ?_, ?_, ?_, ?_⟩
  · rw [hout, written_of_not_emitting he]; simp
  · simpa using (List.sublist_append_left p1 _).trans
      ((List.sublist_append_left (p1 ++ _) _).trans hs1)
  · simpa using (List.sublist_append_left p2 _).trans
      ((List.sublist_append_left (p2 ++ _) _).trans hs2)
  · simpa using (List.sublist_append_left p3 _).trans
      ((List.sublist_append_left (p3 ++ _) _).trans hs3)

/-- Witness for `sink_is_rounds`: a handle of default size after `New`, then one round
queued and six steps of `printLoop`, the last of which is the write of line 144. -/
theorem sink_is_rounds_witness :
    New (fresh 0) = .ok (New (fresh 0)).state ∧
    ∃ p1 p2 p3 : List String, p1.length = p2.length ∧ p2.length = p3.length ∧
      (run ([Action.PrintFirst "one", Action.PrintSecond "two", Action.PrintThird "three"] ++
        List.replicate 6 Action.Loop) (New (fresh 0)).state).Out =
        rounds p1 p2 p3 ++
          (run ([Action.PrintFirst "one", Action.PrintSecond "two",
            Action.PrintThird "three"] ++
            List.replicate 6 Action.Loop) (New (fresh 0)).state).loop.written ∧
      ((run ([Action.PrintFirst "one", Action.PrintSecond "two", Action.PrintThird "three"] ++
        List.replicate 6 Action.Loop) (New (fresh 0)).state).loop.emitting = false →
        (run ([Action.PrintFirst "one", Action.PrintSecond "two",
          Action.PrintThird "three"] ++
          List.replicate 6 Action.Loop) (New (fresh 0)).state).Out = rounds p1 p2 p3) ∧
      p1.Sublist (accepted1 ([Action.PrintFirst "one", Action.PrintSecond "two",
        Action.PrintThird "three"] ++ List.replicate 6 Action.Loop) (New (fresh 0)).state) ∧
      p2.Sublist (accepted2 ([Action.PrintFirst "one", Action.PrintSecond "two",
        Action.PrintThird "three"] ++ List.replicate 6 Action.Loop) (New (fresh 0)).state) ∧
      p3.Sublist (accepted3 ([Action.PrintFirst "one", Action.PrintSecond "two",
        Action.PrintThird "three"] ++ List.replicate 6 Action.Loop) (New (fresh 0)).state) :=
  ⟨by decide,
    sink_is_rounds 0 (New (fresh 0)).state
      ([Action.PrintFirst "one", Action.PrintSecond "two", Action.PrintThird "three"] ++
        List.replicate 6 Action.Loop) (by decide)⟩

end orderedlogs

namespace orderedlogs

/-! ## Graceful drain after all calls have completed -/

theorem LoopStep.drainInv {k cap : Nat} {o s : OrderedLogs} {e1 e2 e3 : List String}
    (h : LoopStep o s) (hinv : DrainInv k cap o e1 e2 e3) : DrainInv k cap s e1 e2 e3 := by
  obtain ⟨hi, hidle, ⟨hc1, hc2, hc3⟩, hcap, hflag, hlen, hleft, p1, p2, p3, h12, h23, hout,
    he1, he2, he3⟩ := hinv
  have l1 := congrArg List.length he1
  have l2 := congrArg List.length he2
  have l3 := congrArg List.length he3
  cases h
  case print3 f g x hl =>
    refine ⟨hi, by simp, ⟨hc1, hc2, hc3⟩, hcap, by simp [Loc.afterFlag], hlen,
      by simp [Loc.left], p1 ++ [f], p2 ++ [g], p3 ++ [x], by simp [h12], by simp [h23],
      ?_, ?_, ?_, ?_⟩
    · simp [hl, Loc.written, rounds_snoc p1 p2 p3 f g x h12 h23, hout, String.append_assoc]
    · simpa [hl, Loc.taken1] using he1
    · simpa [hl, Loc.taken2] using he2
    · simpa [hl, Loc.taken3] using he3
  all_goals
    refine ⟨hi, by simp, ⟨hc1, hc2, hc3⟩, hcap, ?_, hlen, ?_, p1, p2, p3, h12, h23, ?_, ?_, ?_, ?_⟩
  all_goals
    simp_all [Loc.afterFlag, Loc.left, Loc.written, Loc.taken1, Loc.taken2, Loc.taken3,
      String.append_assoc]
  all_goals
    first
    | omega
    | exact ⟨List.eq_nil_of_length_eq_zero (by omega), List.eq_nil_of_length_eq_zero (by omega)⟩


theorem New_fresh (size : Int) (hsize : 0 ≤ size) :
    New (fresh size) = .ok
      { first := Chan.make (capacity size), second := Chan.make (capacity size),
        third := Chan.make (capacity size), Size := if size = 0 then 512 else size,
        Out := "", init := true, wait := false, loop := .recvFirst } := by
  unfold New fresh capacity
  by_cases h0 : size = 0
  · simp [h0]
  · have : ¬ size < 0 := by omega
    simp [h0, this]

theorem drainInv_New (k : Nat) (size : Int) (hsize : 0 ≤ size) :
    DrainInv k (capacity size) (New (fresh size)).state [] [] [] := by
  rw [New_fresh size hsize]
  refine ⟨rfl, by simp [Outcome.state], ⟨rfl, rfl, rfl⟩, ⟨rfl, rfl, rfl⟩, by simp [Outcome.state, Loc.afterFlag],
    by simp [Outcome.state], by simp [Outcome.state, Loc.left], [], [], [], rfl, rfl, ?_, ?_, ?_, ?_⟩ <;>
    simp [Outcome.state, Loc.written, Loc.taken1, Loc.taken2, Loc.taken3, rounds, Chan.make]

theorem left_afterFlag {l : Loc} (h : l.left = true) : l.afterFlag = true := by
  cases l <;> simp_all [Loc.left, Loc.afterFlag]

theorem LoopStep.wait_eq {o s : OrderedLogs} (h : LoopStep o s) : s.wait = o.wait := by
  cases h <;> rfl

theorem drainInv_PrintFirst {k cap : Nat} {o : OrderedLogs} {e1 e2 e3 : List String} (m : String)
    (hinv : DrainInv k cap o e1 e2 e3) (hw : o.wait = false) (hroom : e1.length < cap) :
    DrainInv k cap (PrintFirst m o).state (e1 ++ [m]) e2 e3 ∧
      (PrintFirst m o).state.wait = false := by
  obtain ⟨hi, hidle, ⟨hc1, hc2, hc3⟩, ⟨hcap1, hcap2, hcap3⟩, hflag, hlen, hleft, p1, p2, p3,
    h12, h23, hout, he1, he2, he3⟩ := hinv
  have l1 := congrArg List.length he1
  simp only [List.length_append] at l1
  have hlt : o.first.buf.length < o.first.cap := by omega
  have hP : PrintFirst m o =
      .ok { o with first := { o.first with buf := o.first.buf ++ [m] } } := by
    simp [PrintFirst, New_of_init o hi, sendFirst, Chan.trySend, hc1, hlt]
  rw [hP]
  refine ⟨⟨hi, hidle, ⟨hc1, hc2, hc3⟩, ⟨hcap1, hcap2, hcap3⟩, hflag, ?_, ?_, p1, p2, p3,
    h12, h23, hout, ?_, he2, he3⟩, hw⟩
  · intro h; simp [Outcome.state, hw] at h
  · intro h
    have := hflag (left_afterFlag h)
    simp [hw] at this
  · simp [Outcome.state, he1]

theorem drainInv_PrintSecond {k cap : Nat} {o : OrderedLogs} {e1 e2 e3 : List String} (m : String)
    (hinv : DrainInv k cap o e1 e2 e3) (hw : o.wait = false) (hroom : e2.length < cap) :
    DrainInv k cap (PrintSecond m o).state e1 (e2 ++ [m]) e3 ∧
      (PrintSecond m o).state.wait = false := by
  obtain ⟨hi, hidle, ⟨hc1, hc2, hc3⟩, ⟨hcap1, hcap2, hcap3⟩, hflag, hlen, hleft, p1, p2, p3,
    h12, h23, hout, he1, he2, he3⟩ := hinv
  have l1 := congrArg List.length he2
  simp only [List.length_append] at l1
  have hlt : o.second.buf.length < o.second.cap := by omega
  have hP : PrintSecond m o =
      .ok { o with second := { o.second with buf := o.second.buf ++ [m] } } := by
    simp [PrintSecond, New_of_init o hi, sendSecond, Chan.trySend, hc2, hlt]
  rw [hP]
  refine ⟨⟨hi, hidle, ⟨hc1, hc2, hc3⟩, ⟨hcap1, hcap2, hcap3⟩, hflag, ?_, ?_, p1, p2, p3,
    h12, h23, hout, he1, ?_, he3⟩, hw⟩
  · intro h; simp [Outcome.state, hw] at h
  · intro h
    have := hflag (left_afterFlag h)
    simp [hw] at this
  · simp [Outcome.state, he2]

theorem drainInv_PrintThird {k cap : Nat} {o : OrderedLogs} {e1 e2 e3 : List String} (m : String)
    (hinv : DrainInv k cap o e1 e2 e3) (hw : o.wait = false) (hroom : e3.length < cap) :
    DrainInv k cap (PrintThird m o).state e1 e2 (e3 ++ [m]) ∧
      (PrintThird m o).state.wait = false := by
  obtain ⟨hi, hidle, ⟨hc1, hc2, hc3⟩, ⟨hcap1, hcap2, hcap3⟩, hflag, hlen, hleft, p1, p2, p3,
    h12, h23, hout, he1, he2, he3⟩ := hinv
  have l1 := congrArg List.length he3
  simp only [List.length_append] at l1
  have hlt : o.third.buf.length < o.third.cap := by omega
  have hP : PrintThird m o =
      .ok { o with third := { o.third with buf := o.third.buf ++ [m] } } := by
    simp [PrintThird, New_of_init o hi, sendThird, Chan.trySend, hc3, hlt]
  rw [hP]
  refine ⟨⟨hi, hidle, ⟨hc1, hc2, hc3⟩, ⟨hcap1, hcap2, hcap3⟩, hflag, ?_, ?_, p1, p2, p3,
    h12, h23, hout, he1, he2, ?_⟩, hw⟩
  · intro h; simp [Outcome.state, hw] at h
  · intro h
    have := hflag (left_afterFlag h)
    simp [hw] at this
  · simp [Outcome.state, he3]

theorem drainInv_run_pre {k cap : Nat} (pre : List Action) (o : OrderedLogs)
    (e1 e2 e3 : List String) (hinv : DrainInv k cap o e1 e2 e3) (hw : o.wait = false)
    (hpre : ∀ a ∈ pre, a.producerOrLoop = true)
    (hr1 : (e1 ++ callsFirst pre).length ≤ cap) (hr2 : (e2 ++ callsSecond pre).length ≤ cap)
    (hr3 : (e3 ++ callsThird pre).length ≤ cap) :
    DrainInv k cap (run pre o) (e1 ++ callsFirst pre) (e2 ++ callsSecond pre)
      (e3 ++ callsThird pre) ∧ (run pre o).wait = false := by
  induction pre generalizing o e1 e2 e3 with
  | nil => simpa [run, callsFirst, callsSecond, callsThird] using ⟨hinv, hw⟩
  | cons a as ih =>
    have has : ∀ b ∈ as, b.producerOrLoop = true := fun b hb => hpre b (List.mem_cons_of_mem a hb)
    have ha := hpre a (List.mem_cons_self a as)
    cases a with
    | PrintFirst m =>
      simp only [callsFirst, callsSecond, callsThird, List.length_append, List.length_cons] at hr1 hr2 hr3
      obtain ⟨h1, h2⟩ := drainInv_PrintFirst m hinv hw (by omega)
      have := ih (step (.PrintFirst m) o) (e1 ++ [m]) e2 e3 h1 h2 has
        (by simp only [List.length_append, List.length_cons, List.length_nil]; omega)
        (by simp only [List.length_append]; omega) (by simp only [List.length_append]; omega)
      simpa [run, callsFirst, callsSecond, callsThird] using this
    | PrintSecond m =>
      simp only [callsFirst, callsSecond, callsThird, List.length_append, List.length_cons] at hr1 hr2 hr3
      obtain ⟨h1, h2⟩ := drainInv_PrintSecond m hinv hw (by omega)
      have := ih (step (.PrintSecond m) o) e1 (e2 ++ [m]) e3 h1 h2 has
        (by simp only [List.length_append]; omega)
        (by simp only [List.length_append, List.length_cons, List.length_nil]; omega)
        (by simp only [List.length_append]; omega)
      simpa [run, callsFirst, callsSecond, callsThird] using this
    | PrintThird m =>
      simp only [callsFirst, callsSecond, callsThird, List.length_append, List.length_cons] at hr1 hr2 hr3
      obtain ⟨h1, h2⟩ := drainInv_PrintThird m hinv hw (by omega)
      have := ih (step (.PrintThird m) o) e1 e2 (e3 ++ [m]) h1 h2 has
        (by simp only [List.length_append]; omega) (by simp only [List.length_append]; omega)
        (by simp only [List.length_append, List.length_cons, List.length_nil]; omega)
      simpa [run, callsFirst, callsSecond, callsThird] using this
    | Loop =>
      have hstep : DrainInv k cap (step .Loop o) e1 e2 e3 ∧ (step .Loop o).wait = false := by
        simp only [step]
        cases h : printLoop o with
        | none => exact ⟨hinv, hw⟩
        | some s =>
          exact ⟨(LoopStep.of_printLoop h).drainInv hinv,
            (LoopStep.of_printLoop h).wait_eq.trans hw⟩
      simpa [run, callsFirst, callsSecond, callsThird] using
        ih (step .Loop o) e1 e2 e3 hstep.1 hstep.2 has
          (by simpa [callsFirst] using hr1) (by simpa [callsSecond] using hr2)
          (by simpa [callsThird] using hr3)
    | New => simp [Action.producerOrLoop] at ha
    | WaitStore => simp [Action.producerOrLoop] at ha
    | CloseFirst => simp [Action.producerOrLoop] at ha
    | CloseSecond => simp [Action.producerOrLoop] at ha
    | CloseThird => simp [Action.producerOrLoop] at ha

theorem step_Print_fresh (size : Int) (hsize : 0 ≤ size) (a : Action)
    (ha : a.producerOrLoop = true) (hne : a ≠ .Loop) :
    step a (fresh size) = step a (New (fresh size)).state := by
  have hN := New_fresh size hsize
  have hi : (New (fresh size)).state.init = true := by rw [hN]; rfl
  cases a with
  | PrintFirst m =>
    simp only [step, Action.call, PrintFirst, New_of_init _ hi]
    rw [hN]; rfl
  | PrintSecond m =>
    simp only [step, Action.call, PrintSecond, New_of_init _ hi]
    rw [hN]; rfl
  | PrintThird m =>
    simp only [step, Action.call, PrintThird, New_of_init _ hi]
    rw [hN]; rfl
  | Loop => exact absurd rfl hne
  | New => simp [Action.producerOrLoop] at ha
  | WaitStore => simp [Action.producerOrLoop] at ha
  | CloseFirst => simp [Action.producerOrLoop] at ha
  | CloseSecond => simp [Action.producerOrLoop] at ha
  | CloseThird => simp [Action.producerOrLoop] at ha

/-- A schedule of producer calls and `printLoop` steps with at least one `PrintFirst`
behaves on a fresh handle as on the handle `New` returns: the first call initialises. -/
theorem run_fresh_eq (size : Int) (hsize : 0 ≤ size) (pre : List Action)
    (hpre : ∀ a ∈ pre, a.producerOrLoop = true) (hne : callsFirst pre ≠ []) :
    run pre (fresh size) = run pre (New (fresh size)).state := by
  induction pre with
  | nil => simp [callsFirst] at hne
  | cons a as ih =>
    have ha := hpre a (List.mem_cons_self a as)
    by_cases hl : a = .Loop
    · subst hl
      have h1 : step .Loop (fresh size) = fresh size := rfl
      have h2 : step .Loop (New (fresh size)).state = (New (fresh size)).state := by
        rw [New_fresh size hsize]; rfl
      simp only [run, h1, h2]
      exact ih (fun b hb => hpre b (List.mem_cons_of_mem _ hb)) (by simpa [callsFirst] using hne)
    · simp only [run, step_Print_fresh size hsize a ha hl]

theorem Close_noop (o : OrderedLogs) (hi : o.init = true)
    (hb : o.first.buf = [] ∧ o.second.buf = [] ∧ o.third.buf = [])
    (hc : o.first.closed = false ∧ o.second.closed = false ∧ o.third.closed = false) :
    Close o = .ok o := by
  cases o
  simp_all [Close, closeFirst, closeSecond, closeThird, closeSelect, Chan.recv]

theorem LoopStep.stepsLeft_lt {o s : OrderedLogs} (h : LoopStep o s) :
    stepsLeft s < stepsLeft o := by
  cases h <;> simp_all [stepsLeft, Loc.offset]
  omega

/-- Under the drain invariant with the flag set, `printLoop` can move unless it has
finished or sits in the receive on an empty first channel. -/
theorem printLoop_enabled {k cap : Nat} {o : OrderedLogs} {e1 e2 e3 : List String}
    (hinv : DrainInv k cap o e1 e2 e3) (hw : o.wait = true)
    (hnb : ¬ (o.loop = .recvFirst ∧ o.first.buf = [])) (hnd : o.loop ≠ .done) :
    ∃ s, printLoop o = some s := by
  obtain ⟨hi, hidle, ⟨hc1, hc2, hc3⟩, hcap, hflag, hlen, hleft, p1, p2, p3, h12, h23, hout,
    he1, he2, he3⟩ := hinv
  obtain ⟨k1, k2, k3⟩ := hlen hw
  have l1 := congrArg List.length he1
  have l2 := congrArg List.length he2
  have l3 := congrArg List.length he3
  unfold printLoop
  cases hl : o.loop <;> simp only [hl] at hidle hnd hnb l1 l2 l3 ⊢
  case idle => exact absurd rfl hidle
  case done => exact absurd rfl hnd
  case recvFirst =>
    cases hb : o.first.buf with
    | nil => exact absurd ⟨trivial, hb⟩ hnb
    | cons v r =>
      simp only [Chan.recv, hb]
      exact ⟨_, rfl⟩
  case recvSecond f =>
    cases hb : o.second.buf with
    | nil =>
      simp [Loc.taken1, Loc.taken2, hb] at l1 l2
      omega
    | cons v r =>
      simp only [Chan.recv, hb]
      exact ⟨_, rfl⟩
  case recvThird f g =>
    cases hb : o.third.buf with
    | nil =>
      simp [Loc.taken1, Loc.taken3, hb] at l1 l3
      omega
    | cons v r =>
      simp only [Chan.recv, hb]
      exact ⟨_, rfl⟩
  all_goals exact ⟨_, rfl⟩

theorem LoopStep.not_blocked {o s : OrderedLogs} (h : LoopStep o s) (hw : o.wait = true) :
    ¬ (s.loop = .recvFirst ∧ s.first.buf = []) := by
  cases h <;> simp_all

theorem stepsLeft_zero {k cap : Nat} {o : OrderedLogs} {e1 e2 e3 : List String}
    (hinv : DrainInv k cap o e1 e2 e3) (h : stepsLeft o = 0) : o.loop = .done := by
  have hidle := hinv.2.1
  unfold stepsLeft at h
  cases hl : o.loop <;> simp_all

/-- Progress: with the flag set and `printLoop` not blocked on an empty first channel,
`stepsLeft` steps (or more) bring `printLoop` to its end. -/
theorem run_loop_done {k cap : Nat} {e1 e2 e3 : List String} (n : Nat) (o : OrderedLogs)
    (hinv : DrainInv k cap o e1 e2 e3) (hw : o.wait = true)
    (hnb : ¬ (o.loop = .recvFirst ∧ o.first.buf = [])) (hn : stepsLeft o ≤ n) :
    (run (List.replicate n Action.Loop) o).loop = .done := by
  induction n generalizing o with
  | zero =>
    show o.loop = .done
    exact stepsLeft_zero hinv (by omega)
  | succ n ih =>
    by_cases hd : o.loop = .done
    · rw [run_loop_blocked o (by simp [printLoop, hd])]
      exact hd
    · obtain ⟨s, hs⟩ := printLoop_enabled hinv hw hnb hd
      have hstep := LoopStep.of_printLoop hs
      simp only [List.replicate_succ, run, step, hs, Option.getD_some]
      exact ih s (hstep.drainInv hinv) (hstep.wait_eq.trans hw) (hstep.not_blocked hw)
        (by have := hstep.stepsLeft_lt; omega)

theorem stepsLeft_le {k cap : Nat} {o : OrderedLogs} {e1 e2 e3 : List String}
    (hinv : DrainInv k cap o e1 e2 e3) (hk : e1.length = k) : stepsLeft o ≤ 13 * k + 14 := by
  obtain ⟨hi, hidle, hc, hcap, hflag, hlen, hleft, p1, p2, p3, h12, h23, hout,
    he1, he2, he3⟩ := hinv
  have l1 := congrArg List.length he1
  simp only [List.length_append] at l1
  unfold stepsLeft
  cases hl : o.loop <;> simp [Loc.offset] <;> omega

/-- C1: on a handle of size `size` (capacity `size`, or 512 when `size` is zero), let
`pre` be any schedule of `PrintFirst`/`PrintSecond`/`PrintThird` calls and `printLoop`
steps that gives every stream exactly `k` messages, `1 ≤ k ≤` capacity; then `Wait`
stores its flag and `printLoop` takes `n` further steps.  Whenever the wait group is
released (`printLoop` has finished), the `Close` inside `Wait` returns without changing
anything, and the sink is exactly the `k` rounds: for each index the message of the
first, the second and the third stream, each followed by a newline.  The wait group is
released after at most `13 * k + 14` steps of `printLoop`, unless `printLoop` was, when
the flag was stored, already back in its receive on the emptied first channel. -/
theorem wait_sink_is_all_rounds (size : Int) (k : Nat) (pre : List Action) (n : Nat)
    (hsize : 0 ≤ size) (hk : 1 ≤ k) (hcap : k ≤ capacity size)
    (hpre : ∀ a ∈ pre, a.producerOrLoop = true)
    (h1 : (callsFirst pre).length = k) (h2 : (callsSecond pre).length = k)
    (h3 : (callsThird pre).length = k) :
    ((run (pre ++ Action.WaitStore :: List.replicate n Action.Loop) (fresh size)).loop
        = Loc.done →
      Close (run (pre ++ Action.WaitStore :: List.replicate n Action.Loop) (fresh size)) =
        .ok (run (pre ++ Action.WaitStore :: List.replicate n Action.Loop) (fresh size)) ∧
      (run (pre ++ Action.WaitStore :: List.replicate n Action.Loop) (fresh size)).Out =
        rounds (callsFirst pre) (callsSecond pre) (callsThird pre)) ∧
    (¬ ((run pre (fresh size)).loop = Loc.recvFirst ∧ (run pre (fresh size)).first.buf = []) →
      13 * k + 14 ≤ n →
      (run (pre ++ Action.WaitStore :: List.replicate n Action.Loop) (fresh size)).loop
        = Loc.done) := by
  have hne : callsFirst pre ≠ [] := by
    intro h; rw [h] at h1; simp at h1; omega
  have hpre1 := drainInv_run_pre (k := k) pre (New (fresh size)).state [] [] []
    (drainInv_New k size hsize) (by rw [New_fresh size hsize]; rfl) hpre
    (by simp; omega) (by simp; omega) (by simp; omega)
  rw [← run_fresh_eq size hsize pre hpre hne] at hpre1
  simp only [List.nil_append] at hpre1
  obtain ⟨hinv, hw⟩ := hpre1
  have hst : step .WaitStore (run pre (fresh size)) =
      { run pre (fresh size) with wait := true } := by
    simp [step, Action.call, waitStore, hinv.1, hw, Outcome.state]
  have hstore : DrainInv k (capacity size) (step .WaitStore (run pre (fresh size)))
      (callsFirst pre) (callsSecond pre) (callsThird pre) := by
    obtain ⟨hi, hidle, hc, hcp, hflag, hlen, hleft, hex⟩ := hinv
    rw [hst]
    exact ⟨hi, hidle, hc, hcp, fun _ => rfl, fun _ => ⟨h1, h2, h3⟩, hleft, hex⟩
  have hrun : run (pre ++ Action.WaitStore :: List.replicate n Action.Loop) (fresh size) =
      run (List.replicate n Action.Loop) (step .WaitStore (run pre (fresh size))) := by
    rw [run_append]; rfl
  rw [hrun]
  constructor
  · intro hdone
    have hfin := run_loop_induction
      (fun s => DrainInv k (capacity size) s (callsFirst pre) (callsSecond pre)
        (callsThird pre))
      (fun a b ha hab => hab.drainInv ha) n _ hstore
    obtain ⟨hi, hidle, hc, hcp, hflag, hlen, hleft, p1, p2, p3, h12, h23, hout, he1, he2,
      he3⟩ := hfin
    have hb := hleft (by rw [hdone]; rfl)
    refine ⟨Close_noop _ hi hb hc, ?_⟩
    rw [hdone] at he1 he2 he3 hout
    simp only [Loc.taken1, Loc.taken2, Loc.taken3, hb.1, hb.2.1, hb.2.2, List.append_nil]
      at he1 he2 he3
    rw [hout, he1, he2, he3]
    simp [Loc.written]
  · intro hnb hn
    refine run_loop_done n _ hstore (by rw [hst]) (by rw [hst]; exact hnb) ?_
    exact le_trans (stepsLeft_le hstore h1) hn

/-- Witness for `wait_sink_is_all_rounds`: the test "out of order" (default size, one
round queued third, second, first, then `Wait`), with thirty steps of `printLoop`. -/
theorem wait_sink_is_all_rounds_witness :
    ((0 : Int) ≤ 0 ∧ 1 ≤ 1 ∧ 1 ≤ capacity 0 ∧
      (∀ a ∈ outOfOrder, a.producerOrLoop = true) ∧
      (callsFirst outOfOrder).length = 1 ∧ (callsSecond outOfOrder).length = 1 ∧
      (callsThird outOfOrder).length = 1) ∧
    (((run (outOfOrder ++ Action.WaitStore :: List.replicate 30 Action.Loop) (fresh 0)).loop
        = Loc.done →
      Close (run (outOfOrder ++ Action.WaitStore :: List.replicate 30 Action.Loop) (fresh 0)) =
        .ok (run (outOfOrder ++ Action.WaitStore :: List.replicate 30 Action.Loop) (fresh 0)) ∧
      (run (outOfOrder ++ Action.WaitStore :: List.replicate 30 Action.Loop) (fresh 0)).Out =
        rounds (callsFirst outOfOrder) (callsSecond outOfOrder) (callsThird outOfOrder)) ∧
    (¬ ((run outOfOrder (fresh 0)).loop = Loc.recvFirst ∧
        (run outOfOrder (fresh 0)).first.buf = []) →
      13 * 1 + 14 ≤ 30 →
      (run (outOfOrder ++ Action.WaitStore :: List.replicate 30 Action.Loop) (fresh 0)).loop
        = Loc.done)) ∧
    (run (outOfOrder ++ Action.WaitStore :: List.replicate 30 Action.Loop) (fresh 0)).loop
      = Loc.done ∧
    (run (outOfOrder ++ Action.WaitStore :: List.replicate 30 Action.Loop) (fresh 0)).Out =
      "one\ntwo\nthree\n" :=
  ⟨by decide,
    wait_sink_is_all_rounds 0 1 outOfOrder 30 (by decide) (by decide) (by decide) (by decide)
      (by decide) (by decide) (by decide),
    by decide, by decide⟩

end orderedlogs
namespace log_parse

/-! ## `CountEvents`: order of the result -/

theorem less_false_iff (a b : EventCount) :
    less b a = false ↔
      (a.Count > b.Count ∨ (a.Count = b.Count ∧ a.Method < b.Method) ∨
        (a.Count = b.Count ∧ a.Method = b.Method ∧ a.Endpoint ≤ b.Endpoint)) := by
  unfold less
  by_cases hc : b.Count = a.Count
  · by_cases hm : b.Method = a.Method
    · simp only [hc, hm, if_true, decide_eq_false_iff_not, not_lt]
      constructor
      · intro h; exact Or.inr (Or.inr ⟨trivial, trivial, h⟩)
      · rintro (h | ⟨_, h⟩ | ⟨_, _, h⟩)
        · omega
        · exact absurd h (lt_irrefl _)
        · exact h
    · simp only [hc, hm, if_true, if_false, decide_eq_false_iff_not, not_lt]
      constructor
      · intro h
        exact Or.inr (Or.inl ⟨trivial, lt_of_le_of_ne h (fun e => hm e.symm)⟩)
      · rintro (h | ⟨_, h⟩ | ⟨_, h, _⟩)
        · omega
        · exact le_of_lt h
        · exact absurd h.symm hm
  · simp only [hc, if_false, decide_eq_false_iff_not]
    constructor
    · intro h; left; omega
    · rintro (h | ⟨h, _⟩ | ⟨h, _⟩)
      · omega
      · exact absurd h.symm hc
      · exact absurd h.symm hc

theorem less_asymm {a b : EventCount} (h : less a b = true) : less b a = false := by
  unfold less at h ⊢
  by_cases hc : a.Count = b.Count
  · by_cases hm : a.Method = b.Method
    · simp only [hc, hm, if_true, decide_eq_true_eq] at h
      simp only [hc, hm, if_true, decide_eq_false_iff_not]
      exact not_lt_of_lt h
    · simp only [hc, hm, if_true, if_false, decide_eq_true_eq] at h
      have hm2 : ¬ b.Method = a.Method := fun e => hm e.symm
      simp only [hc, hm2, if_true, if_false, decide_eq_false_iff_not]
      exact not_lt_of_lt h
  · simp only [hc, if_false, decide_eq_true_eq] at h
    have hc2 : ¬ b.Count = a.Count := fun e => hc e.symm
    simp only [hc2, if_false, decide_eq_false_iff_not]
    omega

theorem insertBack_chain (x : EventCount) (acc : List EventCount)
    (h : List.Chain' (fun y z => less y z = false) acc) :
    List.Chain' (fun y z => less y z = false) (insertBack x acc) ∧
      ((insertBack x acc).head? = some x ∨ (insertBack x acc).head? = acc.head?) := by
  induction acc with
  | nil => simp [insertBack]
  | cons y rest ih =>
    unfold insertBack
    by_cases hxy : less x y = true
    · simp only [hxy, if_true]
      obtain ⟨ihc, ihh⟩ := ih (List.Chain'.tail h)
      refine ⟨?_, Or.inr rfl⟩
      rw [List.chain'_cons']
      refine ⟨?_, ihc⟩
      intro z hz
      rcases ihh with hh | hh
      · rw [hh] at hz
        cases hz
        exact less_asymm hxy
      · rw [hh] at hz
        exact (List.chain'_cons'.mp h).1 z hz
    · simp only [hxy]
      refine ⟨?_, Or.inl rfl⟩
      exact List.Chain'.cons (by simpa using hxy) h

theorem insertionSort_chain (acc xs : List EventCount)
    (h : List.Chain' (fun y z => less y z = false) acc) :
    List.Chain' (fun a b => less b a = false) (insertionSort acc xs) := by
  induction xs generalizing acc with
  | nil =>
    unfold insertionSort
    rw [List.chain'_reverse]
    exact h
  | cons x xs ih =>
    unfold insertionSort
    exact ih _ (insertBack_chain x acc h).1

theorem ordered_iff_chain (l : List EventCount) :
    Ordered l ↔ List.Chain' (fun a b => less b a = false) l := by
  induction l with
  | nil => simp [Ordered]
  | cons a rest ih =>
    cases rest with
    | nil => simp [Ordered]
    | cons b rest =>
      rw [List.chain'_cons, ← ih, less_false_iff]
      rfl

/-- C8: for every list of log lines, whatever the order in which the map is iterated,
the sequence returned by `CountEvents` is ordered by `Count` descending, equal counts by
`Method` ascending and then by `Endpoint` ascending: each pair of adjacent entries
`a`, `b` has `a.Count > b.Count`, or equal counts and `a.Method < b.Method`, or equal
counts and methods and `a.Endpoint ≤ b.Endpoint`. -/
theorem CountEvents_ordered (values : List EventCount → List EventCount)
    (logs : List String) : Ordered (CountEvents values logs) := by
  rw [ordered_iff_chain]
  exact insertionSort_chain [] _ List.chain'_nil

end log_parse
namespace log_parse

/-! ## `CountEvents`: the counts -/

/-- The count stored in the map under a key (0 when the key is missing). -/
theorem getCount_bump (event ev : Event) (evs : List EventCount) :
    getCount ev (bump event evs) = getCount ev evs + if ev = event then 1 else 0 := by
  induction evs with
  | nil =>
    by_cases h : ev = event
    · simp [bump, getCount, h]
    · have h2 : ¬ event = ev := fun e => h e.symm
      simp [bump, getCount, h, h2]
  | cons c rest ih =>
    unfold bump
    by_cases hc : c.toEvent = event
    · by_cases h : ev = event
      · subst h
        simp [getCount, hc]
      · have h2 : ¬ c.toEvent = ev := fun e => h (e.symm.trans hc)
        have h3 : ¬ event = ev := fun e => h e.symm
        simp [getCount, List.find?_cons, hc, h, h2, h3]
    · simp only [hc, if_false]
      by_cases h2 : c.toEvent = ev
      · have h : ¬ ev = event := fun e => hc (h2.trans e)
        simp [getCount, h2, h]
      · simp only [getCount, List.find?_cons, h2, decide_False] at ih ⊢
        exact ih

theorem keys_bump (event : Event) (evs : List EventCount) :
    (bump event evs).map EventCount.toEvent =
      if event ∈ evs.map EventCount.toEvent then evs.map EventCount.toEvent
      else evs.map EventCount.toEvent ++ [event] := by
  induction evs with
  | nil => simp [bump]
  | cons c rest ih =>
    unfold bump
    by_cases hc : c.toEvent = event
    · simp [hc]
    · have h2 : ¬ event = c.toEvent := fun e => hc e.symm
      simp only [hc, if_false, List.map_cons, ih, List.mem_cons, h2, false_or]
      split <;> simp

theorem sum_bump (event : Event) (evs : List EventCount) :
    ((bump event evs).map EventCount.Count).sum = (evs.map EventCount.Count).sum + 1 := by
  induction evs with
  | nil => simp [bump]
  | cons c rest ih =>
    unfold bump
    by_cases hc : c.toEvent = event
    · simp [hc]; omega
    · simp only [hc, if_false, List.map_cons, List.sum_cons, ih]; omega

end log_parse

namespace log_parse

theorem countLoop_snoc (logs : List String) (l : String) (evs : List EventCount) :
    countLoop (logs ++ [l]) evs =
      match ParseLine l with
      | .ok event => bump event (countLoop logs evs)
      | .error _ => countLoop logs evs := by
  simp [countLoop, List.foldl_append]

theorem isOk_eq_true_iff (r : Except Error Event) : r.isOk = true ↔ ∃ ev, r = .ok ev := by
  cases r <;> simp [Except.isOk, Except.toBool]

/-- What the counting loop has in the map after processing `logs`: distinct keys, under
each key the number of lines that parse to it, a key for exactly the events some line
parses to, and counts that add up to the number of lines that parse. -/
theorem countLoop_spec (logs : List String) :
    ((countLoop logs []).map EventCount.toEvent).Nodup ∧
    (∀ ev, getCount ev (countLoop logs []) =
      logs.countP (fun l => decide (ParseLine l = .ok ev))) ∧
    (∀ ev, ev ∈ (countLoop logs []).map EventCount.toEvent ↔
      ∃ l ∈ logs, ParseLine l = .ok ev) ∧
    ((countLoop logs []).map EventCount.Count).sum =
      logs.countP (fun l => (ParseLine l).isOk) := by
  induction logs using List.reverseRecOn with
  | nil => simp [countLoop, getCount]
  | append_singleton logs l ih =>
    obtain ⟨hnd, hcnt, hkeys, hsum⟩ := ih
    rw [countLoop_snoc]
    cases hp : ParseLine l with
    | error e =>
      refine ⟨hnd, ?_, ?_, ?_⟩
      · intro ev
        simp [List.countP_append, List.countP_cons, hcnt, hp]
      · intro ev
        rw [hkeys ev]
        constructor
        · rintro ⟨x, hx, hxe⟩
          exact ⟨x, by simp [hx], hxe⟩
        · rintro ⟨x, hx, hxe⟩
          rcases List.mem_append.mp hx with h | h
          · exact ⟨x, h, hxe⟩
          · simp at h; subst h; rw [hp] at hxe; cases hxe
      · simp [List.countP_append, List.countP_cons, hsum, hp, Except.isOk, Except.toBool]
    | ok event =>
      refine ⟨?_, ?_, ?_, ?_⟩
      · show ((bump event (countLoop logs [])).map EventCount.toEvent).Nodup
        rw [keys_bump]
        split
        · exact hnd
        · rename_i hmem
          exact List.Nodup.append hnd (List.nodup_singleton _) (by simpa using hmem)
      · intro ev
        show getCount ev (bump event (countLoop logs [])) = _
        rw [getCount_bump, hcnt ev]
        by_cases h : ev = event
        · simp [List.countP_append, List.countP_cons, hp, h]
        · have h2 : ¬ event = ev := fun e => h e.symm
          simp [List.countP_append, List.countP_cons, hp, h, h2]
      · intro ev
        show ev ∈ (bump event (countLoop logs [])).map EventCount.toEvent ↔ _
        rw [keys_bump]
        constructor
        · intro hmem
          have : ev ∈ (countLoop logs []).map EventCount.toEvent ∨ ev = event := by
            split at hmem
            · exact Or.inl hmem
            · simpa using hmem
          rcases this with h | h
          · obtain ⟨x, hx, hxe⟩ := (hkeys ev).mp h
            exact ⟨x, by simp [hx], hxe⟩
          · exact ⟨l, by simp, by rw [hp, h]⟩
        · rintro ⟨x, hx, hxe⟩
          rcases List.mem_append.mp hx with h | h
          · have := (hkeys ev).mpr ⟨x, h, hxe⟩
            split
            · exact this
            · exact List.mem_append_left _ this
          · simp at h; subst h
            rw [hp] at hxe
            cases hxe
            split
            · assumption
            · simp
      · show ((bump event (countLoop logs [])).map EventCount.Count).sum = _
        rw [sum_bump, hsum]
        simp [List.countP_append, List.countP_cons, hp, Except.isOk, Except.toBool]

theorem getCount_of_mem (evs : List EventCount)
    (hnd : (evs.map EventCount.toEvent).Nodup) (c : EventCount) (hc : c ∈ evs) :
    getCount c.toEvent evs = c.Count := by
  induction evs with
  | nil => cases hc
  | cons d rest ih =>
    rw [List.map_cons, List.nodup_cons] at hnd
    rcases List.mem_cons.mp hc with h | h
    · subst h
      simp [getCount]
    · have hne : ¬ d.toEvent = c.toEvent := by
        intro e
        exact hnd.1 (e ▸ List.mem_map_of_mem _ h)
      have := ih hnd.2 h
      simpa [getCount, List.find?_cons, hne] using this

theorem insertBack_perm (x : EventCount) (acc : List EventCount) :
    (insertBack x acc).Perm (x :: acc) := by
  induction acc with
  | nil => simp [insertBack]
  | cons y rest ih =>
    unfold insertBack
    split
    · exact (List.Perm.cons y ih).trans (List.Perm.swap x y rest)
    · exact List.Perm.refl _

theorem insertionSort_perm (acc xs : List EventCount) :
    (insertionSort acc xs).Perm (acc ++ xs) := by
  induction xs generalizing acc with
  | nil => simp [insertionSort]
  | cons x xs ih =>
    unfold insertionSort
    refine (ih _).trans ?_
    refine (List.Perm.append_right xs (insertBack_perm x acc)).trans ?_
    simpa using (@List.perm_middle EventCount x acc xs).symm

theorem CountEvents_perm (values : List EventCount → List EventCount)
    (hvalues : ∀ l, (values l).Perm l) (logs : List String) :
    (CountEvents values logs).Perm (countLoop logs []) := by
  unfold CountEvents sortSlice
  have h := insertionSort_perm [] (values (countLoop logs []))
  rw [List.nil_append] at h
  exact h.trans (hvalues _)

/-- C7: for every list of log lines, whatever the order `values` in which the map is
iterated, `CountEvents` returns exactly one entry for each distinct event (method,
endpoint, status) that at least one line parses to, the `Count` of an entry is the
number of lines that `ParseLine` maps to its event, and the counts add up to the number
of lines that parse (rejected lines contribute nothing). -/
theorem CountEvents_counts (values : List EventCount → List EventCount)
    (hvalues : ∀ l, (values l).Perm l) (logs : List String) :
    ((CountEvents values logs).map EventCount.toEvent).Nodup ∧
    (∀ ev, (∃ c ∈ CountEvents values logs, c.toEvent = ev) ↔
      ∃ l ∈ logs, ParseLine l = .ok ev) ∧
    (∀ c ∈ CountEvents values logs,
      c.Count = logs.countP (fun l => decide (ParseLine l = .ok c.toEvent))) ∧
    ((CountEvents values logs).map EventCount.Count).sum =
      logs.countP (fun l => (ParseLine l).isOk) := by
  have hperm := CountEvents_perm values hvalues logs
  obtain ⟨hnd, hcnt, hkeys, hsum⟩ := countLoop_spec logs
  refine ⟨((hperm.map _).nodup_iff).mpr hnd, ?_, ?_, ?_⟩
  · intro ev
    rw [← hkeys ev, List.mem_map]
    constructor
    · rintro ⟨c, hc, rfl⟩
      exact ⟨c, hperm.mem_iff.mp hc, rfl⟩
    · rintro ⟨c, hc, rfl⟩
      exact ⟨c, hperm.mem_iff.mpr hc, rfl⟩
  · intro c hc
    rw [← hcnt c.toEvent, getCount_of_mem _ hnd c (hperm.mem_iff.mp hc)]
  · rw [← hsum]
    exact (hperm.map _).sum_eq

/-- Witness for `CountEvents_counts`: the test "multiple same calls with varying user
agent", with the map iterated in insertion order. -/
theorem CountEvents_counts_witness :
    (∀ l : List EventCount, (id l).Perm l) ∧
    ((CountEvents id varyingUserAgent).map EventCount.toEvent).Nodup ∧
    (∀ ev, (∃ c ∈ CountEvents id varyingUserAgent, c.toEvent = ev) ↔
      ∃ l ∈ varyingUserAgent, ParseLine l = .ok ev) ∧
    (∀ c ∈ CountEvents id varyingUserAgent,
      c.Count = varyingUserAgent.countP (fun l => decide (ParseLine l = .ok c.toEvent))) ∧
    ((CountEvents id varyingUserAgent).map EventCount.Count).sum =
      varyingUserAgent.countP (fun l => (ParseLine l).isOk) :=
  ⟨fun l => List.Perm.refl l, CountEvents_counts id (fun l => List.Perm.refl l) varyingUserAgent⟩

end log_parse

namespace concurrentdownloads

/-! ## `FetchURL` -/

/-- C10, counterexample: a response with status 304 (not a 2xx code), obtained without
transport error, makes `FetchURL` return the body with a nil error; and so does
status 399. -/
theorem FetchURL_not_modified :
    FetchURL "u" (.ok ()) (.ok { StatusCode := 304, Body := .ok [1, 2] }) = .ok [1, 2] ∧
    ¬ (200 ≤ (304 : Int) ∧ (304 : Int) ≤ 299) ∧
    FetchURL "u" (.ok ()) (.ok { StatusCode := 399, Body := .ok [] }) = .ok [] := by
  refine ⟨rfl, by decide, rfl⟩

/-- C10, amended: for every response obtained without transport error or cancellation
whose body can be read, `FetchURL` returns the status failure exactly when the status
code is greater than 399, and otherwise returns the raw body bytes with a nil error
(so also for the codes below 200 and from 300 to 399). -/
theorem FetchURL_status (url : String) (res : Response) (data : List UInt8)
    (hbody : res.Body = .ok data) :
    (FetchURL url (.ok ()) (.ok res) = .error (.status url res.StatusCode) ↔
      res.StatusCode > 399) ∧
    (¬ res.StatusCode > 399 → FetchURL url (.ok ()) (.ok res) = .ok data) ∧
    ((∃ e, FetchURL url (.ok ()) (.ok res) = .error e) ↔ res.StatusCode > 399) := by
  by_cases h : res.StatusCode > 399
  · simp [FetchURL, h]
  · simp [FetchURL, h, hbody]

/-- Witness for `FetchURL_status`: a response with status 204 and an empty body. -/
theorem FetchURL_status_witness :
    (({ StatusCode := 204, Body := .ok [] } : Response).Body = .ok []) ∧
    ((FetchURL "u" (.ok ()) (.ok { StatusCode := 204, Body := .ok [] }) =
        .error (.status "u" ({ StatusCode := 204, Body := .ok [] } : Response).StatusCode) ↔
      ({ StatusCode := 204, Body := .ok [] } : Response).StatusCode > 399) ∧
    (¬ ({ StatusCode := 204, Body := .ok [] } : Response).StatusCode > 399 →
      FetchURL "u" (.ok ()) (.ok { StatusCode := 204, Body := .ok [] }) = .ok []) ∧
    ((∃ e, FetchURL "u" (.ok ()) (.ok { StatusCode := 204, Body := .ok [] }) = .error e) ↔
      ({ StatusCode := 204, Body := .ok [] } : Response).StatusCode > 399)) :=
  ⟨rfl, FetchURL_status "u" { StatusCode := 204, Body := .ok [] } [] rfl⟩

end concurrentdownloads

namespace log_parse

/-! ## `ParseLine`: the pattern and the documented record shape -/

theorem greedy_some {α : Type} (k : List Char → Option α) (s : List Char) (fuel n : Nat) (r : α)
    (h : greedy k s fuel = some (n, r)) :
    1 ≤ n ∧ n ≤ fuel ∧ k (s.drop n) = some r := by
  induction fuel with
  | zero => simp [greedy] at h
  | succ m ih =>
    unfold greedy at h
    cases hk : k (s.drop (m + 1)) with
    | some r2 =>
      simp only [hk, Option.some.injEq, Prod.mk.injEq] at h
      obtain ⟨rfl, rfl⟩ := h
      exact ⟨by omega, le_refl _, hk⟩
    | none =>
      simp only [hk] at h
      obtain ⟨h1, h2, h3⟩ := ih h
      exact ⟨h1, by omega, h3⟩

theorem greedy_eq {α : Type} (k : List Char → Option α) (s : List Char) (fuel n : Nat) (r : α)
    (h1 : 1 ≤ n) (h2 : n ≤ fuel) (hk : k (s.drop n) = some r)
    (hlong : ∀ j, n < j → j ≤ fuel → k (s.drop j) = none) :
    greedy k s fuel = some (n, r) := by
  induction fuel with
  | zero => omega
  | succ m ih =>
    unfold greedy
    by_cases hn : n = m + 1
    · subst hn
      simp [hk]
    · rw [hlong (m + 1) (by omega) (le_refl _)]
      exact ih (by omega) (fun j hj hjm => hlong j hj (by omega))

theorem greedy_isSome {α : Type} (k : List Char → Option α) (s : List Char) (fuel n : Nat)
    (h1 : 1 ≤ n) (h2 : n ≤ fuel) (hk : (k (s.drop n)).isSome = true) :
    (greedy k s fuel).isSome = true := by
  induction fuel with
  | zero => omega
  | succ m ih =>
    unfold greedy
    cases hm : k (s.drop (m + 1)) with
    | some r => simp
    | none =>
      simp only
      by_cases hn : n = m + 1
      · subst hn; rw [hm] at hk; simp at hk
      · exact ih (by omega)

theorem all_of_le_takeWhile (cls : Char → Bool) (s : List Char) (n : Nat)
    (hn : n ≤ (s.takeWhile cls).length) : ∀ c ∈ s.take n, cls c = true := by
  induction s generalizing n with
  | nil => simp
  | cons a s ih =>
    cases n with
    | zero => simp
    | succ n =>
      by_cases ha : cls a = true
      · simp only [List.takeWhile_cons, ha, if_true, List.length_cons] at hn
        intro c hc
        simp only [List.take_succ_cons, List.mem_cons] at hc
        rcases hc with rfl | hc
        · exact ha
        · exact ih n (by omega) c hc
      · simp [List.takeWhile_cons, ha] at hn

theorem le_takeWhile_of_all (cls : Char → Bool) (w t : List Char)
    (hw : ∀ c ∈ w, cls c = true) : w.length ≤ ((w ++ t).takeWhile cls).length := by
  rw [List.takeWhile_append_of_pos hw]
  simp

/-- Soundness and completeness of the backtracking matcher for the declarative reading. -/
theorem matchHere_isSome_iff (items : List Item) (s : List Char) :
    (matchHere items s).isSome = true ↔ Accepts items s := by
  induction items generalizing s with
  | nil => simp [matchHere, Accepts]
  | cons item items ih =>
    cases item with
    | lit cs =>
      unfold matchHere Accepts
      constructor
      · intro h
        by_cases hp : cs.isPrefixOf s = true
        · rw [if_pos hp] at h
          obtain ⟨t, ht⟩ := List.isPrefixOf_iff_prefix.mp hp
          refine ⟨t, ht.symm, ?_⟩
          rw [← ht, List.drop_left] at h
          exact (ih t).mp h
        · rw [if_neg hp] at h; simp at h
      · rintro ⟨t, rfl, ht⟩
        have hp : cs.isPrefixOf (cs ++ t) = true :=
          List.isPrefixOf_iff_prefix.mpr (List.prefix_append cs t)
        rw [if_pos hp, List.drop_left]
        exact (ih t).mpr ht
    | one cls =>
      cases s with
      | nil =>
        rw [matchHere, Accepts]
        constructor
        · intro h; cases h
        · rintro ⟨c, t, -, h, -⟩; cases h
      | cons c s =>
        rw [matchHere, Accepts]
        constructor
        · intro h
          by_cases hc : cls c = true
          · rw [if_pos hc] at h
            exact ⟨c, s, hc, rfl, (ih s).mp h⟩
          · rw [if_neg hc] at h; cases h
        · rintro ⟨c2, t, hc, h, ht⟩
          simp only [List.cons.injEq] at h
          obtain ⟨rfl, rfl⟩ := h
          rw [if_pos hc]
          exact (ih s).mpr ht
    | plus cls capture =>
      unfold matchHere Accepts
      constructor
      · intro h
        cases hg : greedy (matchHere items) s (s.takeWhile cls).length with
        | none => simp [hg] at h
        | some r =>
          obtain ⟨n, caps⟩ := r
          obtain ⟨h1, h2, h3⟩ := greedy_some _ _ _ _ _ hg
          refine ⟨s.take n, s.drop n, ?_, all_of_le_takeWhile cls s n h2,
            (List.take_append_drop n s).symm, (ih _).mp (by simp [h3])⟩
          intro hnil
          rcases List.take_eq_nil_iff.mp hnil with h0 | h0
          · omega
          · subst h0
            simp at h2
            omega
      · rintro ⟨w, t, hw, hall, rfl, ht⟩
        have hlen : 1 ≤ w.length := by
          cases w with
          | nil => exact absurd rfl hw
          | cons a w => simp
        have := greedy_isSome (matchHere items) (w ++ t) ((w ++ t).takeWhile cls).length
          w.length hlen (le_takeWhile_of_all cls w t hall)
          (by rw [List.drop_left]; exact (ih t).mpr ht)
        cases hg : greedy (matchHere items) (w ++ t) ((w ++ t).takeWhile cls).length with
        | none => rw [hg] at this; simp at this
        | some r => simp

theorem find_isSome_iff (items : List Item) (s : List Char) :
    (find items s).isSome = true ↔ Matches items s := by
  induction s with
  | nil =>
    unfold find Matches
    rw [matchHere_isSome_iff]
    constructor
    · intro h; exact ⟨[], [], rfl, h⟩
    · rintro ⟨b, r, hbr, h⟩
      have hb : b = [] := by cases b <;> simp_all
      subst hb
      simp only [List.nil_append] at hbr
      subst hbr
      exact h
  | cons c s ih =>
    unfold find
    cases hm : matchHere items (c :: s) with
    | some caps =>
      simp only [Option.isSome_some, true_iff]
      exact ⟨[], c :: s, rfl, (matchHere_isSome_iff _ _).mp (by simp [hm])⟩
    | none =>
      simp only
      rw [ih]
      constructor
      · rintro ⟨b, r, hbr, h⟩
        exact ⟨c :: b, r, by simp [hbr], h⟩
      · rintro ⟨b, r, hbr, h⟩
        cases b with
        | nil =>
          simp only [List.nil_append] at hbr
          subst hbr
          have := (matchHere_isSome_iff _ _).mpr h
          rw [hm] at this; simp at this
        | cons b0 b =>
          simp only [List.cons_append, List.cons.injEq] at hbr
          exact ⟨b, r, hbr.2, h⟩

theorem http_toList :
    " HTTP/1.1 ".toList = [' ', 'H', 'T', 'T', 'P', '/', '1', '.', '1', ' '] := rfl

theorem matchHere_lit (cs : List Char) (items : List Item) (t : List Char) :
    matchHere (.lit cs :: items) (cs ++ t) = matchHere items t := by
  have hp : cs.isPrefixOf (cs ++ t) = true :=
    List.isPrefixOf_iff_prefix.mpr (List.prefix_append cs t)
  rw [matchHere, if_pos hp, List.drop_left]

theorem matchHere_lit_some (cs : List Char) (items : List Item) (t : List Char)
    (caps : List (List Char)) (h : matchHere (.lit cs :: items) t = some caps) : cs <+: t := by
  rw [matchHere] at h
  by_cases hp : cs.isPrefixOf t = true
  · exact List.isPrefixOf_iff_prefix.mp hp
  · rw [if_neg hp] at h; cases h

theorem matchHere_plus (cls : Char → Bool) (capture : Bool) (items : List Item)
    (s : List Char) (n : Nat) (caps : List (List Char))
    (h1 : 1 ≤ n) (h2 : n ≤ (s.takeWhile cls).length)
    (hk : matchHere items (s.drop n) = some caps)
    (hlong : ∀ j, n < j → j ≤ (s.takeWhile cls).length → matchHere items (s.drop j) = none) :
    matchHere (.plus cls capture :: items) s =
      some (if capture then s.take n :: caps else caps) := by
  rw [matchHere, greedy_eq (matchHere items) s _ n caps h1 h2 hk hlong]

theorem takeWhile_stop (cls : Char → Bool) (w : List Char) (c : Char) (t : List Char)
    (hw : ∀ x ∈ w, cls x = true) (hc : cls c = false) :
    (w ++ c :: t).takeWhile cls = w := by
  rw [List.takeWhile_append_of_pos hw]
  simp [List.takeWhile_cons, hc]

theorem length_pos_of_ne_nil {w : List Char} (h : w ≠ []) : 1 ≤ w.length := by
  cases w with
  | nil => exact absurd rfl h
  | cons a w => simp

/-- A suffix of `A ++ B` that starts with a character not occurring in `A` is a suffix
of `B`. -/
theorem suffix_skip (x : Char) (A B t : List Char) (hA : ∀ c ∈ A, c ≠ x)
    (ht : t <:+ A ++ B) (hx : t.head? = some x) : t <:+ B := by
  induction A with
  | nil => simpa using ht
  | cons a A ih =>
    rw [List.cons_append, List.suffix_cons_iff] at ht
    rcases ht with rfl | ht
    · simp at hx
      exact absurd hx (hA a (by simp))
    · exact ih (fun c hc => hA c (by simp [hc])) ht

theorem upper_ne {c : Char} (h : c.isUpper = true) :
    c ≠ ' ' ∧ c ≠ ']' ∧ c ≠ '/' := by
  refine ⟨?_, ?_, ?_⟩ <;> (rintro rfl; revert h; decide)

theorem digit_ne {c : Char} (h : c.isDigit = true) :
    c ≠ ' ' ∧ c ≠ ']' ∧ c ≠ 'H' := by
  refine ⟨?_, ?_, ?_⟩ <;> (rintro rfl; revert h; decide)

/-- The last item: `(.+)` at the end of the pattern takes the whole user agent. -/
theorem match_ua (a : List Char) (ha : a ≠ []) (hnl : ∀ c ∈ a, (c != '\n') = true) :
    matchHere [.plus (fun c => c != '\n') true] a = some [a] := by
  have htw : a.takeWhile (fun c => c != '\n') = a := List.takeWhile_eq_self_iff.mpr hnl
  have := matchHere_plus (fun c => c != '\n') true [] a a.length []
    (length_pos_of_ne_nil ha) (by rw [htw]) (by simp [matchHere])
    (fun j hj hj2 => by rw [htw] at hj2; omega)
  simpa using this

/-- From the status on: `(\d+) (.+)` on `STATUS UA`. -/
theorem match_status (d a : List Char) (hd : d ≠ []) (hdig : ∀ c ∈ d, c.isDigit = true)
    (ha : a ≠ []) (hnl : ∀ c ∈ a, (c != '\n') = true) :
    matchHere [.plus Char.isDigit true, .lit [' '], .plus (fun c => c != '\n') true]
      (d ++ ' ' :: a) = some [d, a] := by
  have htw : (d ++ ' ' :: a).takeWhile Char.isDigit = d :=
    takeWhile_stop _ d ' ' a hdig (by decide)
  have := matchHere_plus Char.isDigit true [.lit [' '], .plus (fun c => c != '\n') true]
    (d ++ ' ' :: a) d.length [a] (length_pos_of_ne_nil hd) (by rw [htw])
    (by
      rw [List.drop_left]
      exact (matchHere_lit [' '] _ a).trans (match_ua a ha hnl))
    (fun j hj hj2 => by rw [htw] at hj2; omega)
  simpa using this

theorem matchHere_one (cls : Char → Bool) (items : List Item) (c : Char) (t : List Char)
    (hc : cls c = true) : matchHere (.one cls :: items) (c :: t) = matchHere items t := by
  rw [matchHere, if_pos hc]

/-- The three items of `HTTP/1.1` in the pattern consume the literal text ` HTTP/1.1 `. -/
theorem matchHere_http (items : List Item) (rest : List Char) :
    matchHere (.lit " HTTP/1".toList :: .one (fun c => c != '\n') :: .lit ['1', ' '] :: items)
      (" HTTP/1.1 ".toList ++ rest) = matchHere items rest := by
  have e : " HTTP/1.1 ".toList ++ rest = " HTTP/1".toList ++ ('.' :: (['1', ' '] ++ rest)) :=
    rfl
  rw [e, matchHere_lit, matchHere_one _ _ _ _ (by decide), matchHere_lit]

theorem accepts_http (items : List Item) (t : List Char)
    (h : Accepts (.lit " HTTP/1".toList :: .one (fun c => c != '\n') :: .lit ['1', ' '] ::
      items) t) : httpHere t = true := by
  obtain ⟨t1, rfl, c, t2, hc, rfl, t3, rfl, -⟩ := h
  show httpHere (' ' :: 'H' :: 'T' :: 'T' :: 'P' :: '/' :: '1' :: c :: '1' :: ' ' :: t3) = true
  simpa [httpHere] using hc

theorem matchHere_http_some (items : List Item) (t : List Char) (caps : List (List Char))
    (h : matchHere (.lit " HTTP/1".toList :: .one (fun c => c != '\n') :: .lit ['1', ' '] ::
      items) t = some caps) : httpHere t = true :=
  accepts_http items t ((matchHere_isSome_iff _ _).mp (by rw [h]; rfl))

theorem httpHere_head {t : List Char} (h : httpHere t = true) :
    ∃ c rest, t = ' ' :: c :: rest ∧ c = 'H' := by
  unfold httpHere at h
  split at h
  · exact ⟨_, _, rfl, rfl⟩
  · cases h

theorem containsHttp_of_suffix {t s : List Char} (h : httpHere t = true) (hs : t <:+ s) :
    containsHttp s = true := by
  induction s with
  | nil =>
    have : t = [] := List.suffix_nil.mp hs
    subst this
    simp [httpHere] at h
  | cons c s ih =>
    rcases List.suffix_cons_iff.mp hs with rfl | hs
    · simp [containsHttp, h]
    · simp [containsHttp, ih hs]

/-- No proper suffix of ` HTTP/1.1 STATUS UA` starts with a match of ` HTTP/1.1 `, when the
text ` UA` contains none. -/
theorem no_later_http (d a t : List Char) (hd : d ≠ []) (hdig : ∀ c ∈ d, c.isDigit = true)
    (hua : containsHttp (' ' :: a) = false)
    (ht : t <:+ ['H', 'T', 'T', 'P', '/', '1', '.', '1', ' '] ++ (d ++ ' ' :: a))
    (hp : httpHere t = true) : False := by
  obtain ⟨c0, rest0, ht0, hc0⟩ := httpHere_head hp
  simp only [List.cons_append, List.nil_append, List.suffix_cons_iff] at ht
  rcases ht with h | h | h | h | h | h | h | h | h | ht
  · rw [ht0] at h; simp at h
  · rw [ht0] at h; simp at h
  · rw [ht0] at h; simp at h
  · rw [ht0] at h; simp at h
  · rw [ht0] at h; simp at h
  · rw [ht0] at h; simp at h
  · rw [ht0] at h; simp at h
  · rw [ht0] at h; simp at h
  · cases d with
    | nil => exact hd rfl
    | cons c d =>
      rw [ht0] at h
      simp only [List.cons_append, List.cons.injEq, true_and] at h
      exact (digit_ne (hdig c (by simp))).2.2 (h.1.symm.trans hc0)
  · have hhead : t.head? = some ' ' := by rw [ht0]; rfl
    have := suffix_skip ' ' d (' ' :: a) t (fun c hc => (digit_ne (hdig c hc)).1) ht hhead
    rw [containsHttp_of_suffix hp this] at hua
    cases hua

/-- From the endpoint on: `(.+) HTTP/1.1 (\d+) (.+)` on `URI HTTP/1.1 STATUS UA`. -/
theorem match_endpoint (u d a : List Char) (hu : u ≠ [])
    (hunl : ∀ c ∈ u, (c != '\n') = true)
    (hd : d ≠ []) (hdig : ∀ c ∈ d, c.isDigit = true)
    (ha : a ≠ []) (hnl : ∀ c ∈ a, (c != '\n') = true)
    (hua : containsHttp (' ' :: a) = false) :
    matchHere [.plus (fun c => c != '\n') true,
        .lit " HTTP/1".toList, .one (fun c => c != '\n'), .lit ['1', ' '],
        .plus Char.isDigit true, .lit [' '], .plus (fun c => c != '\n') true]
      (u ++ (" HTTP/1.1 ".toList ++ (d ++ ' ' :: a))) = some [u, d, a] := by
  have := matchHere_plus (fun c => c != '\n') true
    [.lit " HTTP/1".toList, .one (fun c => c != '\n'), .lit ['1', ' '],
      .plus Char.isDigit true, .lit [' '], .plus (fun c => c != '\n') true]
    (u ++ (" HTTP/1.1 ".toList ++ (d ++ ' ' :: a))) u.length [d, a]
    (length_pos_of_ne_nil hu) (le_takeWhile_of_all _ u _ hunl)
    (by
      rw [List.drop_left]
      exact (matchHere_http _ _).trans (match_status d a hd hdig ha hnl))
    (fun j hj _ => by
      cases hm : matchHere [.lit " HTTP/1".toList, .one (fun c => c != '\n'),
        .lit ['1', ' '], .plus Char.isDigit true, .lit [' '],
        .plus (fun c => c != '\n') true]
        (List.drop j (u ++ (" HTTP/1.1 ".toList ++ (d ++ ' ' :: a)))) with
      | none => rfl
      | some caps =>
        exfalso
        have hp := matchHere_http_some _ _ _ hm
        have hj2 : j = (u.length + 1) + (j - (u.length + 1)) := by omega
        have hsuf : List.drop j (u ++ (" HTTP/1.1 ".toList ++ (d ++ ' ' :: a))) <:+
            ['H', 'T', 'T', 'P', '/', '1', '.', '1', ' '] ++ (d ++ ' ' :: a) := by
          rw [hj2, ← List.drop_drop]
          have : List.drop (u.length + 1) (u ++ (" HTTP/1.1 ".toList ++ (d ++ ' ' :: a))) =
              ['H', 'T', 'T', 'P', '/', '1', '.', '1', ' '] ++ (d ++ ' ' :: a) := by
            rw [← List.drop_drop, List.drop_left, http_toList]
            rfl
          rw [this]
          exact List.drop_suffix _ _
        exact no_later_http d a _ hd hdig hua hsuf hp)
  simpa using this

/-- From the method on: `([A-Z]+) (.+) HTTP/1.1 (\d+) (.+)`. -/
theorem match_method (m u d a : List Char) (hm : m ≠ [])
    (hup : ∀ c ∈ m, c.isUpper = true) (hu : u ≠ [])
    (hunl : ∀ c ∈ u, (c != '\n') = true)
    (hd : d ≠ []) (hdig : ∀ c ∈ d, c.isDigit = true)
    (ha : a ≠ []) (hnl : ∀ c ∈ a, (c != '\n') = true)
    (hua : containsHttp (' ' :: a) = false) :
    matchHere [.plus Char.isUpper true, .lit [' '],
        .plus (fun c => c != '\n') true, .lit " HTTP/1".toList, .one (fun c => c != '\n'), .lit ['1', ' '],
        .plus Char.isDigit true, .lit [' '], .plus (fun c => c != '\n') true]
      (m ++ ' ' :: (u ++ (" HTTP/1.1 ".toList ++ (d ++ ' ' :: a)))) = some [m, u, d, a] := by
  have htw : (m ++ ' ' :: (u ++ (" HTTP/1.1 ".toList ++ (d ++ ' ' :: a)))).takeWhile
      Char.isUpper = m := takeWhile_stop _ m ' ' _ hup (by decide)
  have := matchHere_plus Char.isUpper true
    [.lit [' '], .plus (fun c => c != '\n') true, .lit " HTTP/1".toList, .one (fun c => c != '\n'), .lit ['1', ' '],
      .plus Char.isDigit true, .lit [' '], .plus (fun c => c != '\n') true]
    (m ++ ' ' :: (u ++ (" HTTP/1.1 ".toList ++ (d ++ ' ' :: a)))) m.length [u, d, a]
    (length_pos_of_ne_nil hm) (by rw [htw])
    (by
      rw [List.drop_left]
      exact (matchHere_lit [' '] _ _).trans (match_endpoint u d a hu hunl hd hdig ha hnl hua))
    (fun j hj hj2 => by rw [htw] at hj2; omega)
  simpa using this

/-- A suffix of `URI ++ B` that starts with `] ` is `]` followed by `B`, or a suffix of
`B`: the URI has no space. -/
theorem suffix_bracket_uri (u B t1 : List Char) (hu : ∀ c ∈ u, c ≠ ' ')
    (ht : ']' :: ' ' :: t1 <:+ u ++ B) :
    ']' :: ' ' :: t1 = ']' :: B ∨ ']' :: ' ' :: t1 <:+ B := by
  induction u with
  | nil => right; simpa using ht
  | cons c u ih =>
    rw [List.cons_append, List.suffix_cons_iff] at ht
    rcases ht with h | h
    · cases u with
      | nil =>
        left
        simp only [List.nil_append, List.cons.injEq] at h
        rw [h.2]
      | cons c2 u =>
        simp only [List.cons_append, List.cons.injEq] at h
        exact absurd h.2.1.symm (hu c2 (by simp))
    · exact ih (fun x hx => hu x (by simp [hx])) h

/-- No text that starts inside ` METHOD URI HTTP/1.1 STATUS UA` is matched by the
pattern from `\] ` on. -/
theorem no_later_bracket (m u d a t : List Char)
    (hup : ∀ c ∈ m, c.isUpper = true) (husp : ∀ c ∈ u, c ≠ ' ')
    (hdig : ∀ c ∈ d, c.isDigit = true)
    (hua : containsHttp (' ' :: a) = false)
    (ht : t <:+ ' ' :: (m ++ ' ' :: (u ++ (" HTTP/1.1 ".toList ++ (d ++ ' ' :: a)))))
    (hacc : Accepts [.lit [']', ' '], .plus Char.isUpper true, .lit [' '],
        .plus (fun c => c != '\n') true,
        .lit " HTTP/1".toList, .one (fun c => c != '\n'), .lit ['1', ' '],
        .plus Char.isDigit true, .lit [' '], .plus (fun c => c != '\n') true] t) :
    False := by
  obtain ⟨t1, rfl, w, t2, hw, hwup, rfl, t3, rfl, e, t4, he, -, rfl, hacc4⟩ := hacc
  have hh : httpHere t4 = true := accepts_http _ _ hacc4
  -- the text starts with `]`, which does not occur in ` METHOD `
  have hA : ∀ c ∈ ' ' :: (m ++ [' ']), c ≠ ']' := by
    intro c hc
    simp at hc
    rcases hc with rfl | hc | rfl
    · decide
    · exact (upper_ne (hup c hc)).2.1
    · decide
  have h1 := suffix_skip ']' (' ' :: (m ++ [' ']))
    (u ++ (" HTTP/1.1 ".toList ++ (d ++ ' ' :: a)))
    ([']', ' '] ++ (w ++ ([' '] ++ (e ++ t4)))) hA
    (by simpa using ht) rfl
  rcases suffix_bracket_uri u _ _ husp h1 with h2 | h2
  · -- `]` is the last character of the URI: the method would have to be `HTTP/1.1`
    rw [http_toList] at h2
    rcases w with _ | ⟨c1, _ | ⟨c2, _ | ⟨c3, _ | ⟨c4, _ | ⟨c5, w⟩⟩⟩⟩⟩
    · exact hw rfl
    · simp at h2
    · simp at h2
    · simp at h2
    · simp at h2
    · simp at h2
      exact (upper_ne (hwup c5 (by simp))).2.2 h2.2.2.2.2.1
  · -- the text lies inside ` HTTP/1.1 STATUS UA`, hence inside the user agent
    have hB : ∀ c ∈ " HTTP/1.1 ".toList ++ (d ++ [' ']), c ≠ ']' := by
      intro c hc
      rcases List.mem_append.mp hc with hc | hc
      · rintro rfl
        revert hc
        decide
      · rcases List.mem_append.mp hc with hc | hc
        · exact (digit_ne (hdig c hc)).2.1
        · rintro rfl
          revert hc
          decide
    have h3 := suffix_skip ']' (" HTTP/1.1 ".toList ++ (d ++ [' '])) a
      ([']', ' '] ++ (w ++ ([' '] ++ (e ++ t4)))) hB
      (by simpa using h2) rfl
    have h4 : t4 <:+ [']', ' '] ++ (w ++ ([' '] ++ (e ++ t4))) :=
      ⟨[']', ' '] ++ (w ++ ([' '] ++ e)), by simp⟩
    have h5 : t4 <:+ ' ' :: a := (h4.trans h3).trans (List.suffix_cons ' ' a)
    rw [containsHttp_of_suffix hh h5] at hua
    cases hua

theorem matchHere_length (items : List Item) (s : List Char) (caps : List (List Char))
    (h : matchHere items s = some caps) : caps.length = captures items := by
  induction items generalizing s caps with
  | nil =>
    rw [matchHere] at h
    cases h
    rfl
  | cons item items ih =>
    cases item with
    | lit cs =>
      rw [matchHere] at h
      by_cases hp : cs.isPrefixOf s = true
      · rw [if_pos hp] at h
        exact ih _ _ h
      · rw [if_neg hp] at h; cases h
    | one cls =>
      cases s with
      | nil => rw [matchHere] at h; cases h
      | cons c s =>
        rw [matchHere] at h
        by_cases hc : cls c = true
        · rw [if_pos hc] at h
          exact ih _ _ h
        · rw [if_neg hc] at h; cases h
    | plus cls capture =>
      rw [matchHere] at h
      cases hg : greedy (matchHere items) s (s.takeWhile cls).length with
      | none => rw [hg] at h; cases h
      | some r =>
        obtain ⟨n, caps2⟩ := r
        rw [hg] at h
        simp only [Option.some.injEq] at h
        have := ih _ _ (greedy_some _ _ _ _ _ hg).2.2
        subst h
        cases capture <;> simp [captures, this]
        omega

theorem find_length (items : List Item) (s : List Char) (caps : List (List Char))
    (h : find items s = some caps) : caps.length = captures items := by
  induction s with
  | nil => exact matchHere_length items [] caps (by simpa [find] using h)
  | cons c s ih =>
    rw [find] at h
    cases hm : matchHere items (c :: s) with
    | some caps2 =>
      rw [hm] at h
      simp only [Option.some.injEq] at h
      subst h
      exact matchHere_length _ _ _ hm
    | none =>
      rw [hm] at h
      exact ih h

theorem Atoi_digits (d : List Char) (hd : d ≠ []) (hdig : ∀ c ∈ d, c.isDigit = true) :
    (Atoi d).1 = min (decimal d : Int) (2 ^ 63 - 1) := by
  cases d with
  | nil => exact absurd rfl hd
  | cons c d =>
    have hc := hdig c (by simp)
    have h1 : c ≠ '-' := by rintro rfl; revert hc; decide
    have h2 : c ≠ '+' := by rintro rfl; revert hc; decide
    have hall : (c :: d).all Char.isDigit = true := by
      rw [List.all_eq_true]; exact hdig
    unfold Atoi
    simp only [List.head?_cons, Option.some.injEq, h1, h2, or_self, if_false, hall,
      reduceCtorEq, Bool.true_eq_false, decide_False, Bool.false_eq_true]
    by_cases hbig : decimal (c :: d) ≥ 2 ^ 63
    · rw [if_pos hbig]
      simp only
      have : ((2 : Int) ^ 63) ≤ (decimal (c :: d) : Int) := by exact_mod_cast hbig
      omega
    · rw [if_neg hbig]
      simp only
      have : (decimal (c :: d) : Int) < (2 : Int) ^ 63 := by
        have := Nat.lt_of_not_ge hbig
        exact_mod_cast this
      omega

/-- The whole pattern on a record of the documented shape whose text ` UA` contains no
match of ` HTTP/1.1 `. -/
theorem find_record (ts m u d a : List Char) (hdoc : Documented ts m u d a)
    (hua : containsHttp (' ' :: a) = false) :
    find pattern (record ts m u d a).toList = some [m, u, d, a] := by
  obtain ⟨⟨hts, htsb⟩, ⟨hm, hup⟩, ⟨hu, husp⟩, ⟨hd, hdig⟩, ⟨ha, -⟩, hnl⟩ := hdoc
  have hunl : ∀ c ∈ u, (c != '\n') = true := fun c hc => by
    simpa using hnl c (by simp [hc])
  have hanl : ∀ c ∈ a, (c != '\n') = true := fun c hc => by
    simpa using hnl c (by simp [hc])
  have htsnb : ∀ c ∈ ts, (c != '[') = true := fun c hc => by
    simpa using (htsb c hc).1
  have hrest := match_method m u d a hm hup hu hunl hd hdig ha hanl hua
  have hbody : matchHere
      [.plus (fun c => c != '[') false, .lit [']', ' '],
        .plus Char.isUpper true, .lit [' '],
        .plus (fun c => c != '\n') true, .lit " HTTP/1".toList, .one (fun c => c != '\n'), .lit ['1', ' '],
        .plus Char.isDigit true, .lit [' '], .plus (fun c => c != '\n') true]
      (ts ++ ([']', ' '] ++ (m ++ ' ' :: (u ++ (" HTTP/1.1 ".toList ++ (d ++ ' ' :: a))))))
      = some [m, u, d, a] := by
    have := matchHere_plus (fun c => c != '[') false
      [.lit [']', ' '], .plus Char.isUpper true, .lit [' '],
        .plus (fun c => c != '\n') true, .lit " HTTP/1".toList, .one (fun c => c != '\n'), .lit ['1', ' '],
        .plus Char.isDigit true, .lit [' '], .plus (fun c => c != '\n') true]
      (ts ++ ([']', ' '] ++ (m ++ ' ' :: (u ++ (" HTTP/1.1 ".toList ++ (d ++ ' ' :: a))))))
      ts.length [m, u, d, a] (length_pos_of_ne_nil hts) (le_takeWhile_of_all _ ts _ htsnb)
      (by
        rw [List.drop_left]
        exact (matchHere_lit _ _ _).trans hrest)
      (fun j hj _ => by
        cases hmj : matchHere
          [.lit [']', ' '], .plus Char.isUpper true, .lit [' '],
            .plus (fun c => c != '\n') true, .lit " HTTP/1".toList, .one (fun c => c != '\n'), .lit ['1', ' '],
            .plus Char.isDigit true, .lit [' '], .plus (fun c => c != '\n') true]
          (List.drop j (ts ++ ([']', ' '] ++
            (m ++ ' ' :: (u ++ (" HTTP/1.1 ".toList ++ (d ++ ' ' :: a))))))) with
        | none => rfl
        | some caps =>
          exfalso
          have hacc := (matchHere_isSome_iff _ _).mp (by rw [hmj]; rfl)
          have hj2 : j = (ts.length + 1) + (j - (ts.length + 1)) := by omega
          have hsuf : List.drop j (ts ++ ([']', ' '] ++
              (m ++ ' ' :: (u ++ (" HTTP/1.1 ".toList ++ (d ++ ' ' :: a)))))) <:+
              ' ' :: (m ++ ' ' :: (u ++ (" HTTP/1.1 ".toList ++ (d ++ ' ' :: a)))) := by
            rw [hj2, ← List.drop_drop]
            have : List.drop (ts.length + 1) (ts ++ ([']', ' '] ++
                (m ++ ' ' :: (u ++ (" HTTP/1.1 ".toList ++ (d ++ ' ' :: a)))))) =
                ' ' :: (m ++ ' ' :: (u ++ (" HTTP/1.1 ".toList ++ (d ++ ' ' :: a)))) := by
              rw [← List.drop_drop, List.drop_left]
              rfl
            rw [this]
            exact List.drop_suffix _ _
          exact no_later_bracket m u d a _ hup husp hdig hua hsuf hacc)
    simpa using this
  have hfull : matchHere pattern (record ts m u d a).toList = some [m, u, d, a] := by
    have := matchHere_lit ['[']
      [.plus (fun c => c != '[') false, .lit [']', ' '],
        .plus Char.isUpper true, .lit [' '],
        .plus (fun c => c != '\n') true, .lit " HTTP/1".toList, .one (fun c => c != '\n'), .lit ['1', ' '],
        .plus Char.isDigit true, .lit [' '], .plus (fun c => c != '\n') true]
      (ts ++ ([']', ' '] ++ (m ++ ' ' :: (u ++ (" HTTP/1.1 ".toList ++ (d ++ ' ' :: a))))))
    exact this.trans hbody
  show find pattern ('[' :: _) = _
  rw [find]
  have hfull2 : matchHere pattern ('[' :: (ts ++ (']' :: ' ' :: (m ++ ' ' :: (u ++
      (" HTTP/1.1 ".toList ++ (d ++ ' ' :: a))))))) = some [m, u, d, a] := hfull
  rw [hfull2]

theorem ParseLine_error_iff (r : String) :
    ParseLine r = .error .ErrInvalidLogFormat ↔ ¬ Matches pattern r.toList := by
  rw [← find_isSome_iff]
  unfold ParseLine
  cases hf : find pattern r.toList with
  | none => simp
  | some caps =>
    have hlen := find_length _ _ _ hf
    rcases caps with _ | ⟨x1, _ | ⟨x2, _ | ⟨x3, _ | ⟨x4, _ | ⟨x5, rest⟩⟩⟩⟩⟩ <;>
      simp [captures, pattern] at hlen
    simp

/-- C9, counterexample: the record `[ts] GET /a HTTP/1.1 200 HTTP/1.1 5 x` has the
documented shape (its user agent `HTTP/1.1 5 x` does not contain ` HTTP/1.1 `), but the
greedy `(.+)` of the endpoint runs to the last match of ` HTTP/1.1 ` in the record:
`ParseLine` returns endpoint `/a HTTP/1.1 200` and status 5.  The dot of `HTTP/1.1` in
the pattern is not escaped, so the user agent `HTTP/1x1 5 y` does the same, while the
text ` HTTP/1.1 ` does not occur in ` HTTP/1x1 5 y` at all.  And a status of more than 18
digits is returned as the largest `int`. -/
theorem ParseLine_greedy_endpoint :
    Documented "ts".toList "GET".toList "/a".toList "200".toList "HTTP/1.1 5 x".toList ∧
    record "ts".toList "GET".toList "/a".toList "200".toList "HTTP/1.1 5 x".toList =
      "[ts] GET /a HTTP/1.1 200 HTTP/1.1 5 x" ∧
    ParseLine "[ts] GET /a HTTP/1.1 200 HTTP/1.1 5 x" =
      .ok { Method := "GET", Endpoint := "/a HTTP/1.1 200", HttpStatus := 5 } ∧
    ParseLine "[ts] GET /a HTTP/1.1 200 HTTP/1.1 5 x" ≠
      .ok { Method := "GET", Endpoint := "/a", HttpStatus := 200 } ∧
    Documented "ts".toList "GET".toList "/a".toList "200".toList "HTTP/1x1 5 y".toList ∧
    ¬ " HTTP/1.1 ".toList <:+: ' ' :: "HTTP/1x1 5 y".toList ∧
    record "ts".toList "GET".toList "/a".toList "200".toList "HTTP/1x1 5 y".toList =
      "[ts] GET /a HTTP/1.1 200 HTTP/1x1 5 y" ∧
    ParseLine "[ts] GET /a HTTP/1.1 200 HTTP/1x1 5 y" =
      .ok { Method := "GET", Endpoint := "/a HTTP/1.1 200", HttpStatus := 5 } ∧
    Documented "ts".toList "GET".toList "/a".toList "9223372036854775808".toList "x".toList ∧
    ParseLine "[ts] GET /a HTTP/1.1 9223372036854775808 x" =
      .ok { Method := "GET", Endpoint := "/a", HttpStatus := 9223372036854775807 } := by
  refine ⟨by decide, by decide, by decide, by decide, by decide, by decide, by decide,
    by decide, by decide, by decide⟩

/-- C9, amended: for every record of the documented shape `[TS] METHOD URI HTTP/1.1
STATUS UA` in which, moreover, the text ` UA` (the user agent with the space before it)
contains no match of ` HTTP/1.1 ` as the pattern reads it, that is with any character
other than a newline in the place of the dot between the two `1`, `ParseLine` returns a
nil error and the event with `Method` METHOD, `Endpoint` URI and `HttpStatus` the decimal
value of STATUS capped at `2^63 - 1` (so the decimal value itself when that is below
`2^63`).  For every record, `ParseLine` returns `ErrInvalidLogFormat` exactly when the
record contains no match of the pattern. -/
theorem ParseLine_documented (ts method uri status ua : List Char)
    (hdoc : Documented ts method uri status ua)
    (hua : containsHttp (' ' :: ua) = false) :
    ParseLine (record ts method uri status ua) =
      .ok { Method := String.mk method, Endpoint := String.mk uri,
            HttpStatus := min (decimal status : Int) (2 ^ 63 - 1) } ∧
    (decimal status < 2 ^ 63 →
      ParseLine (record ts method uri status ua) =
        .ok { Method := String.mk method, Endpoint := String.mk uri,
              HttpStatus := (decimal status : Int) }) ∧
    (∀ r : String, ParseLine r = .error .ErrInvalidLogFormat ↔ ¬ Matches pattern r.toList) := by
  have hfind := find_record ts method uri status ua hdoc hua
  have hatoi := Atoi_digits status hdoc.2.2.2.1.1 hdoc.2.2.2.1.2
  have hmain : ParseLine (record ts method uri status ua) =
      .ok { Method := String.mk method, Endpoint := String.mk uri,
            HttpStatus := min (decimal status : Int) (2 ^ 63 - 1) } := by
    unfold ParseLine
    rw [hfind]
    simp only [hatoi]
  refine ⟨hmain, fun hlt => ?_, ParseLine_error_iff⟩
  rw [hmain]
  have : min (decimal status : Int) (2 ^ 63 - 1) = (decimal status : Int) := by
    have : (decimal status : Int) < (2 : Int) ^ 63 := by exact_mod_cast hlt
    omega
  rw [this]

/-- Witness for `ParseLine_documented`: the record
`[02/Nov/2018:21:46:42 +0000] GET /users/9933 HTTP/1.1 200 iphone-5` of the tests. -/
theorem ParseLine_documented_witness :
    Documented "02/Nov/2018:21:46:42 +0000".toList "GET".toList "/users/9933".toList
      "200".toList "iphone-5".toList ∧
    containsHttp (' ' :: "iphone-5".toList) = false ∧
    (ParseLine (record "02/Nov/2018:21:46:42 +0000".toList "GET".toList "/users/9933".toList
      "200".toList "iphone-5".toList) =
      .ok { Method := String.mk "GET".toList, Endpoint := String.mk "/users/9933".toList,
            HttpStatus := min (decimal "200".toList : Int) (2 ^ 63 - 1) } ∧
    (decimal "200".toList < 2 ^ 63 →
      ParseLine (record "02/Nov/2018:21:46:42 +0000".toList "GET".toList
        "/users/9933".toList "200".toList "iphone-5".toList) =
        .ok { Method := String.mk "GET".toList, Endpoint := String.mk "/users/9933".toList,
              HttpStatus := (decimal "200".toList : Int) }) ∧
    (∀ r : String, ParseLine r = .error .ErrInvalidLogFormat ↔
      ¬ Matches pattern r.toList)) :=
  ⟨by decide, by decide,
    ParseLine_documented "02/Nov/2018:21:46:42 +0000".toList "GET".toList
      "/users/9933".toList "200".toList "iphone-5".toList (by decide) (by decide)⟩

end log_parse

namespace orderedlogs

/-! ## The drain check after the first receive -/

/-- C11, counterexample: a drain has been requested, `printLoop` has popped "one" from
the first stream, the second stream holds "two" and the third is empty.  `printLoop`
does not pop the second stream: it goes through the two length checks of line 126 to
the exit and finishes, and "two" is still queued. -/
theorem stops_before_second_when_third_empty :
    drainSecondOnly.loop = .loadWait1 "one" ∧ drainSecondOnly.wait = true ∧
    drainSecondOnly.second.buf = ["two"] ∧ drainSecondOnly.third.buf = [] ∧
    (run (List.replicate 1 Action.Loop) drainSecondOnly).loop = .lenSecond1 "one" ∧
    (run (List.replicate 2 Action.Loop) drainSecondOnly).loop = .lenThird1 "one" ∧
    (run (List.replicate 3 Action.Loop) drainSecondOnly).loop = .exit ∧
    (run (List.replicate 4 Action.Loop) drainSecondOnly).loop = .done ∧
    (run (List.replicate 4 Action.Loop) drainSecondOnly).second.buf = ["two"] := by
  decide

theorem passLine126_eq (o : OrderedLogs) (f : String) (hl : o.loop = .loadWait1 f) :
    passLine126 3 o =
      { o with loop := if o.wait = true ∧ (o.second.buf = [] ∨ o.third.buf = []) then .exit
                       else .recvSecond f } := by
  obtain ⟨fi, se, th, sz, out, ini, w, lp⟩ := o
  simp only at hl
  subst hl
  cases w <;> rcases hs : se.buf with _ | ⟨a, r⟩ <;> rcases ht : th.buf with _ | ⟨b, r2⟩ <;>
    simp [passLine126, step, printLoop, Loc.atLine126, hs, ht]

/-- C11, amended: after an item `f` has been popped from the first stream, each read of
line 126 is one step: the flag load leads to the length checks exactly when the flag is
set, the check of the second stream leads to the exit exactly when it reports empty, and
the check of the third stream leads to the exit exactly when it reports empty.  Taken
together with no other goroutine in between, `printLoop` stops before popping the second
stream (discarding `f`, queues and sink untouched) if and only if a drain has been
requested and the second or the third stream reports empty; in particular, with a drain
requested, the second stream non-empty and the third empty, it stops there, without
popping the second stream. -/
theorem line126_stops_iff (o : OrderedLogs) (f : String) (hl : o.loop = .loadWait1 f) :
    step .Loop o = { o with loop := if o.wait then .lenSecond1 f else .recvSecond f } ∧
    step .Loop { o with loop := .lenSecond1 f } =
      { o with loop := if o.second.buf.length = 0 then .exit else .lenThird1 f } ∧
    step .Loop { o with loop := .lenThird1 f } =
      { o with loop := if o.third.buf.length = 0 then .exit else .recvSecond f } ∧
    passLine126 3 o =
      { o with loop := if o.wait = true ∧ (o.second.buf = [] ∨ o.third.buf = []) then .exit
                       else .recvSecond f } ∧
    ((passLine126 3 o).loop = .exit ↔
      (o.wait = true ∧ (o.second.buf = [] ∨ o.third.buf = []))) ∧
    (o.wait = true → o.second.buf ≠ [] → o.third.buf = [] →
      passLine126 3 o = { o with loop := .exit }) := by
  have h1 : step .Loop o =
      { o with loop := if o.wait then .lenSecond1 f else .recvSecond f } := by
    simp [step, printLoop, hl]
  have h2 : step .Loop { o with loop := .lenSecond1 f } =
      { o with loop := if o.second.buf.length = 0 then .exit else .lenThird1 f } := by
    simp [step, printLoop]
  have h3 : step .Loop { o with loop := .lenThird1 f } =
      { o with loop := if o.third.buf.length = 0 then .exit else .recvSecond f } := by
    simp [step, printLoop]
  have h4 := passLine126_eq o f hl
  refine ⟨h1, h2, h3, h4, ?_, ?_⟩
  · rw [h4]
    by_cases hc : o.wait = true ∧ (o.second.buf = [] ∨ o.third.buf = [])
    · simp [hc]
    · simp [hc]
  · intro hw hs ht
    rw [h4]
    simp [hw, ht]

/-- Witness for `line126_stops_iff`: the state `drainSecondOnly`, in which `printLoop`
holds "one". -/
theorem line126_stops_iff_witness :
    drainSecondOnly.loop = .loadWait1 "one" ∧
    (step .Loop drainSecondOnly =
      { drainSecondOnly with
        loop := if drainSecondOnly.wait then .lenSecond1 "one" else .recvSecond "one" } ∧
    step .Loop { drainSecondOnly with loop := .lenSecond1 "one" } =
      { drainSecondOnly with
        loop := if drainSecondOnly.second.buf.length = 0 then .exit else .lenThird1 "one" } ∧
    step .Loop { drainSecondOnly with loop := .lenThird1 "one" } =
      { drainSecondOnly with
        loop := if drainSecondOnly.third.buf.length = 0 then .exit else .recvSecond "one" } ∧
    passLine126 3 drainSecondOnly =
      { drainSecondOnly with
        loop := if drainSecondOnly.wait = true ∧
            (drainSecondOnly.second.buf = [] ∨ drainSecondOnly.third.buf = []) then .exit
          else .recvSecond "one" } ∧
    ((passLine126 3 drainSecondOnly).loop = .exit ↔
      (drainSecondOnly.wait = true ∧
        (drainSecondOnly.second.buf = [] ∨ drainSecondOnly.third.buf = []))) ∧
    (drainSecondOnly.wait = true → drainSecondOnly.second.buf ≠ [] →
      drainSecondOnly.third.buf = [] →
      passLine126 3 drainSecondOnly = { drainSecondOnly with loop := .exit })) :=
  ⟨by decide, line126_stops_iff drainSecondOnly "one" (by decide)⟩

end orderedlogs

namespace log_parse

/-! ## `CountEvents`: entries the comparison does not separate -/

/-- C12, failing input: two lines with the same method and endpoint and the statuses 200
and 404.  Both entries have count 1 and `less` holds in neither direction, so the sort
leaves them as the map iteration delivered them: iterating the map in one order returns
200 before 404, in the other order 404 before 200.  Both results are ordered as
documented; the returned sequence is not determined by the input. -/
theorem CountEvents_follows_map_order :
    (∀ l : List EventCount, (id l).Perm l) ∧
    (∀ l : List EventCount, (List.reverse l).Perm l) ∧
    CountEvents id twoStatuses =
      [{ Method := "GET", Endpoint := "/a", HttpStatus := 200, Count := 1 },
       { Method := "GET", Endpoint := "/a", HttpStatus := 404, Count := 1 }] ∧
    CountEvents List.reverse twoStatuses =
      [{ Method := "GET", Endpoint := "/a", HttpStatus := 404, Count := 1 },
       { Method := "GET", Endpoint := "/a", HttpStatus := 200, Count := 1 }] ∧
    CountEvents id twoStatuses ≠ CountEvents List.reverse twoStatuses ∧
    less { Method := "GET", Endpoint := "/a", HttpStatus := 200, Count := 1 }
      { Method := "GET", Endpoint := "/a", HttpStatus := 404, Count := 1 } = false ∧
    less { Method := "GET", Endpoint := "/a", HttpStatus := 404, Count := 1 }
      { Method := "GET", Endpoint := "/a", HttpStatus := 200, Count := 1 } = false := by
  have hloop : countLoop twoStatuses [] =
      [{ Method := "GET", Endpoint := "/a", HttpStatus := 200, Count := 1 },
       { Method := "GET", Endpoint := "/a", HttpStatus := 404, Count := 1 }] := by
    decide
  have h21 : less { Method := "GET", Endpoint := "/a", HttpStatus := 200, Count := 1 }
      { Method := "GET", Endpoint := "/a", HttpStatus := 404, Count := 1 } = false := by
    simp [less]
  have h12 : less { Method := "GET", Endpoint := "/a", HttpStatus := 404, Count := 1 }
      { Method := "GET", Endpoint := "/a", HttpStatus := 200, Count := 1 } = false := by
    simp [less]
  have hid : CountEvents id twoStatuses =
      [{ Method := "GET", Endpoint := "/a", HttpStatus := 200, Count := 1 },
       { Method := "GET", Endpoint := "/a", HttpStatus := 404, Count := 1 }] := by
    unfold CountEvents
    rw [hloop]
    simp [sortSlice, insertionSort, insertBack, h12]
  have hrev : CountEvents List.reverse twoStatuses =
      [{ Method := "GET", Endpoint := "/a", HttpStatus := 404, Count := 1 },
       { Method := "GET", Endpoint := "/a", HttpStatus := 200, Count := 1 }] := by
    unfold CountEvents
    rw [hloop]
    simp [sortSlice, insertionSort, insertBack, h21]
  refine ⟨fun l => List.Perm.refl l, fun l => List.reverse_perm l, hid, hrev, ?_, h21, h12⟩
  rw [hid, hrev]
  decide

end log_parse
